import Mathlib

/-!
Verification of the Blockchair request-queue scheduler
(`src/apps/server/src/services/blockchairRequestQueue.ts`).

The TypeScript class `BlockchairRequestQueue` runs on a single-threaded
event loop.  We embed it as an explicit state machine:

* fields of the class become fields of `BQ.QState`;
* each method becomes a pure state-transformer;
* the single pending `setTimeout` created by `scheduleNextRequest`
  (whose existence is tracked by the class's own `requestScheduled`
  boolean, set exactly when the timer is created and cleared first
  thing in its callback) is modelled by `scheduledAt : Option Nat`,
  the timer's earliest firing instant; `requestScheduled` is
  `scheduledAt.isSome`;
* the suspension of the async method `processQueue` at
  `await item.requestFn()` is modelled by `inFlight : Option QItem`:
  the synchronous prefix of `processQueue` runs in the `fireTimer`
  transition, and the continuation after the `await` runs in the
  `workSucceed` / `workFail` transitions;
* `Date.now()` is a monotone, strictly positive clock, supplied as a
  `now` argument to every transition;
* `uuidv4()` is modelled as a fresh-id counter `nextId`;
* the ghost field `dispatches` records, newest first, the instants at
  which `processQueue` pops an item and writes `lastRequestTime`
  (together with the popped id and the value of `totalProcessed` at
  that instant); it influences no transition.
-/

namespace BQ

/-- Source: `enum RequestPriority`: `USER_INITIATED_CRITICAL = -20`. -/
def USER_INITIATED_CRITICAL : Int := -20

/-- Source: `enum RequestPriority`: `CRITICAL_REQUEST = -10`. -/
def CRITICAL_REQUEST : Int := -10

/-- Source: `enum RequestPriority`: `USER_REQUEST = 0`. -/
def USER_REQUEST : Int := 0

/-- Source: `enum RequestPriority`: `SYSTEM_REQUEST = 10`. -/
def SYSTEM_REQUEST : Int := 10

/-- Source: `private readonly FREE_TIER_RATE_LIMIT_MS = 60000`. -/
def FREE_TIER_RATE_LIMIT_MS : Nat := 60000

/-- Source: `private baseBackoffTime = 1000` (never reassigned in the class). -/
def baseBackoffTime : Nat := 1000

/-- Source: `private maxBackoffTime = 60000` (never reassigned in the class). -/
def maxBackoffTime : Nat := 60000

/-- Source: `QueueItem.status : 'pending' | 'processing' | 'done' | 'error'`. -/
inductive Status where
  | pending
  | processing
  | done
  | error
deriving DecidableEq, Repr

/-- How a request's promise was settled (`resolve`, or `reject` with one
of the two distinct error messages the class uses for cancellation and
for a failing unit of work).  Admission-time rejection in exclusive mode
(`'API request rejected: system is in exclusive mode'`) happens before
any `QueueItem` is created and is reported by `AdmitResult` instead. -/
inductive SettleKind where
  | resolved
  | canceledExclusive
  | rejectedError
deriving DecidableEq, Repr

/-- The immutable part of a `QueueItem` (its `id`, `priority`,
`timestamp`, `isCritical`, `description` fields are written once at
admission and never mutated); the queue array holds these. -/
structure QItem where
  id : Nat
  priority : Int
  timestamp : Nat
  isCritical : Bool
  description : String
deriving DecidableEq, Repr

/-- The view of a `QueueItem` stored in `requestStatusMap` (the map
holds the same object as the queue; the mutable `status` field and the
settlement of the promise are tracked here). -/
structure Entry where
  priority : Int
  timestamp : Nat
  isCritical : Bool
  description : String
  status : Status
  settled : Option SettleKind
deriving DecidableEq, Repr

/-- One record of the ghost dispatch history: the popped item's id, the
instant `lastRequestTime` was written, and `totalProcessed` at that
instant. -/
structure DispatchRec where
  id : Nat
  t : Nat
  p : Nat
deriving DecidableEq, Repr

/-- Synchronous result of an admission call, as observed by the caller:
either the promise is rejected immediately (exclusive mode) or the
request is queued under a fresh id. -/
inductive AdmitResult where
  | rejectedExclusiveMode
  | queued (id : Nat)
deriving DecidableEq, Repr

/-- The fields of `class BlockchairRequestQueue`, plus the event-loop
bookkeeping (`scheduledAt`, `inFlight`), the fresh-id counter, the
clock `time`, and the ghost `dispatches` history. -/
structure QState where
  queue : List QItem
  processing : Bool
  lastRequestTime : Nat
  totalProcessed : Nat
  totalErrors : Nat
  paused : Bool
  exclusiveMode : Bool
  waitingForExclusiveRequest : Bool
  exclusiveRequestId : Option String
  consecutiveErrors : Nat
  currentBackoffTime : Nat
  globalUserPause : Bool
  globalPauseReason : String
  schedulerPaused : Bool
  scheduledAt : Option Nat
  registry : List (Nat × Entry)
  nextId : Nat
  inFlight : Option QItem
  time : Nat
  dispatches : List DispatchRec
deriving Repr

/-- The freshly constructed singleton. -/
def init : QState where
  queue := []
  processing := false
  lastRequestTime := 0
  totalProcessed := 0
  totalErrors := 0
  paused := false
  exclusiveMode := false
  waitingForExclusiveRequest := false
  exclusiveRequestId := none
  consecutiveErrors := 0
  currentBackoffTime := 1000
  globalUserPause := false
  globalPauseReason := ""
  schedulerPaused := false
  scheduledAt := none
  registry := []
  nextId := 0
  inFlight := none
  time := 0
  dispatches := []

/-- Lookup in `requestStatusMap` (association list keyed by id, kept in
insertion order like a JS `Map`). -/
def lookupReg (r : List (Nat × Entry)) (id : Nat) : Option Entry :=
  (r.find? (fun p => p.1 == id)).map (·.2)

/-- Mutation of the (unique) entry with key `id`, in place. -/
def updReg (r : List (Nat × Entry)) (id : Nat) (f : Entry → Entry) :
    List (Nat × Entry) :=
  r.map (fun p => if p.1 == id then (p.1, f p.2) else p)

/-- Source: `Map.set`: replace if the key is present, else append. -/
def setReg (r : List (Nat × Entry)) (id : Nat) (e : Entry) :
    List (Nat × Entry) :=
  if r.any (fun p => p.1 == id) then updReg r id (fun _ => e)
  else r ++ [(id, e)]

/-- Number of registry entries currently in status `processing`. -/
def countProcessing (r : List (Nat × Entry)) : Nat :=
  (r.filter (fun p => p.2.status == Status.processing)).length

/-- The order induced by the comparator of `sortQueue`
(`a.priority - b.priority`, ties by `a.timestamp - b.timestamp`):
`qLE a b` says the comparator does not require `b` before `a`. -/
def qLE (a b : QItem) : Prop :=
  a.priority < b.priority ∨ (a.priority = b.priority ∧ a.timestamp ≤ b.timestamp)

instance : DecidableRel qLE := fun a b => by
  unfold qLE; infer_instance

instance : IsTotal QItem qLE where
  total a b := by
    rcases lt_trichotomy a.priority b.priority with h | h | h
    · exact Or.inl (Or.inl h)
    · rcases Nat.le_total a.timestamp b.timestamp with h' | h'
      · exact Or.inl (Or.inr ⟨h, h'⟩)
      · exact Or.inr (Or.inr ⟨h.symm, h'⟩)
    · exact Or.inr (Or.inl h)

instance : IsTrans QItem qLE where
  trans a b c hab hbc := by
    rcases hab with h | ⟨he, ht⟩
    · rcases hbc with h' | ⟨he', _⟩
      · exact Or.inl (h.trans h')
      · exact Or.inl (he' ▸ h)
    · rcases hbc with h' | ⟨he', ht'⟩
      · exact Or.inl (he ▸ h')
      · exact Or.inr ⟨he.trans he', ht.trans ht'⟩

/-- Source: `private sortQueue()`: `Array.prototype.sort` is stable, so the
result is the stable sort by the comparator's order; Mathlib's
`insertionSort` with `qLE` computes exactly that permutation. -/
def sortQueue (q : List QItem) : List QItem :=
  List.insertionSort qLE q

/-- Source: `Math.max(0, FREE_TIER_RATE_LIMIT_MS - (now - lastRequestTime))`,
the base wait used by `scheduleNextRequest` and by
`getEstimatedWaitTimeForRequest`. -/
def rateWait (lastRequestTime now : Nat) : Nat :=
  (max 0 ((FREE_TIER_RATE_LIMIT_MS : Int) - ((now : Int) - (lastRequestTime : Int)))).toNat

/-- Source: `private scheduleNextRequest()`.  Setting `scheduledAt := some d`
models `requestScheduled = true` together with a `setTimeout` whose
callback cannot run before instant `d`. -/
def scheduleNextRequest (s : QState) (now : Nat) : QState :=
  if s.scheduledAt.isSome then s
  else if s.globalUserPause then s
  else if s.queue.isEmpty || s.paused then s
  else if s.lastRequestTime == 0 || s.totalProcessed == 0 then
    { s with scheduledAt := some now }
  else
    { s with scheduledAt := some (now + rateWait s.lastRequestTime now) }

/-- The guard `!this.processing && !this.paused && !this.requestScheduled`
used by the admission methods before calling `scheduleNextRequest`. -/
def admitGuard (s : QState) : Bool :=
  !s.processing && !s.paused && s.scheduledAt.isNone

/-- Source: `async addRequest(requestFn, isUserRequest, description)`. -/
def addRequest (s : QState) (now : Nat) (isUserRequest : Bool)
    (description : String) : QState × AdmitResult :=
  let priority := if isUserRequest then USER_REQUEST else SYSTEM_REQUEST
  let id := s.nextId
  let s := { s with nextId := s.nextId + 1, time := now }
  if s.exclusiveMode then
    (s, .rejectedExclusiveMode)
  else
    let item : QItem :=
      { id, priority, timestamp := now, isCritical := false, description }
    let entry : Entry :=
      { priority, timestamp := now, isCritical := false, description,
        status := .pending, settled := none }
    let s := { s with
      queue := sortQueue (s.queue ++ [item]),
      registry := setReg s.registry id entry }
    if admitGuard s then (scheduleNextRequest s now, .queued id)
    else (s, .queued id)

/-- Source: `async addCriticalRequest(requestFn, description, exclusiveId?)`. -/
def addCriticalRequest (s : QState) (now : Nat) (description : String)
    (exclusiveId : Option String) : QState × AdmitResult :=
  let s := match exclusiveId with
    | some eid => { s with exclusiveRequestId := some eid }
    | none => s
  let id := s.nextId
  let s := { s with nextId := s.nextId + 1, time := now }
  let item : QItem :=
    { id, priority := CRITICAL_REQUEST, timestamp := now,
      isCritical := true, description }
  let entry : Entry :=
    { priority := CRITICAL_REQUEST, timestamp := now, isCritical := true,
      description, status := .pending, settled := none }
  let s := { s with
    queue := sortQueue (s.queue ++ [item]),
    registry := setReg s.registry id entry }
  if admitGuard s then (scheduleNextRequest s now, .queued id)
  else (s, .queued id)

/-- Source: `async addUserCriticalRequest(requestFn, description)`: calls
`setGlobalUserPause(true, description)`, unshifts a
`USER_INITIATED_CRITICAL` item, re-sorts, registers it, and runs the
same guard + `scheduleNextRequest` as the other admissions. -/
def addUserCriticalRequest (s : QState) (now : Nat) (description : String) :
    QState × AdmitResult :=
  let s := { s with globalUserPause := true, globalPauseReason := description }
  let id := s.nextId
  let s := { s with nextId := s.nextId + 1, time := now }
  let item : QItem :=
    { id, priority := USER_INITIATED_CRITICAL, timestamp := now,
      isCritical := true, description }
  let entry : Entry :=
    { priority := USER_INITIATED_CRITICAL, timestamp := now,
      isCritical := true, description, status := .pending, settled := none }
  let s := { s with
    queue := sortQueue (item :: s.queue),
    registry := setReg s.registry id entry }
  if admitGuard s then (scheduleNextRequest s now, .queued id)
  else (s, .queued id)

/-- Which queued items `enterExclusiveMode` keeps:
`item.isCritical || (preserveUserRequests && item.priority === USER_REQUEST)`. -/
def keepInExclusive (preserveUserRequests : Bool) (item : QItem) : Bool :=
  item.isCritical || (preserveUserRequests && item.priority == USER_REQUEST)

/-- Source: `item.reject(new Error('Request canceled: system entered exclusive
mode'))`: a promise settles at most once. -/
def settleCanceled (e : Entry) : Entry :=
  { e with settled := match e.settled with
      | none => some .canceledExclusive
      | some k => some k }

/-- The `queue.reduce` of `enterExclusiveMode`: reject (settle) the
entry of every queued item that is not kept. -/
def settleFold (preserveUserRequests : Bool) (l : List QItem)
    (r : List (Nat × Entry)) : List (Nat × Entry) :=
  l.foldl
    (fun r item =>
      if keepInExclusive preserveUserRequests item then r
      else updReg r item.id settleCanceled)
    r

/-- Source: `enterExclusiveMode(preserveUserRequests)`. -/
def enterExclusiveMode (s : QState) (preserveUserRequests : Bool)
    (now : Nat) : QState :=
  let s := { s with exclusiveMode := true, waitingForExclusiveRequest := true,
                    time := now }
  { s with
    registry := settleFold preserveUserRequests s.queue s.registry,
    queue := s.queue.filter (keepInExclusive preserveUserRequests) }

/-- Source: `exitExclusiveMode()`. -/
def exitExclusiveMode (s : QState) (now : Nat) : QState :=
  let s := { s with exclusiveMode := false,
                    waitingForExclusiveRequest := false,
                    exclusiveRequestId := none, time := now }
  if !s.queue.isEmpty && admitGuard s then scheduleNextRequest s now else s

/-- The synchronous prefix of `private async processQueue()` (up to
`await item.requestFn()`), run by the `setTimeout` callback after it
clears `requestScheduled`. -/
def processQueue (s : QState) (now : Nat) : QState :=
  if s.globalUserPause then { s with processing := false }
  else if s.queue.isEmpty || s.paused then { s with processing := false }
  else
    match s.queue with
    | [] => { s with processing := false }
    | item :: rest =>
      { s with
        processing := true,
        queue := rest,
        registry := updReg s.registry item.id
          (fun e => { e with status := .processing }),
        lastRequestTime := now,
        inFlight := some item,
        dispatches := ⟨item.id, now, s.totalProcessed⟩ :: s.dispatches }

/-- The `setTimeout` callback installed by `scheduleNextRequest`:
`this.requestScheduled = false; this.processQueue()`. -/
def fireTimer (s : QState) (now : Nat) : QState :=
  processQueue { s with scheduledAt := none, time := now } now

/-- Character-level test that `pat` occurs at the start of the second
list; building block for modelling `String.prototype.includes`. -/
def leadMatch : List Char → List Char → Bool
  | [], _ => true
  | _ :: _, [] => false
  | a :: as, b :: bs => a == b && leadMatch as bs

/-- Model of `String.prototype.includes`: `pat` occurs contiguously
somewhere in the second list. -/
def hasSub (pat : List Char) : List Char → Bool
  | [] => leadMatch pat []
  | c :: rest => leadMatch pat (c :: rest) || hasSub pat rest

/-- The `waitingForExclusiveRequest` clearing performed after either
outcome: `this.waitingForExclusiveRequest && item.isCritical &&
this.exclusiveRequestId && item.description.includes(this.exclusiveRequestId)`. -/
def clearWaiting (s : QState) (item : QItem) : QState :=
  if s.waitingForExclusiveRequest && item.isCritical &&
      (match s.exclusiveRequestId with
        | some eid => hasSub eid.data item.description.data
        | none => false) then
    { s with waitingForExclusiveRequest := false }
  else s

/-- Source: `item.resolve(result)`: first settlement wins. -/
def settleResolved (e : Entry) : Entry :=
  { e with status := .done,
           settled := match e.settled with
             | none => some .resolved
             | some k => some k }

/-- Source: `item.reject(error)` on the failure path of `processQueue`. -/
def settleRejected (e : Entry) : Entry :=
  { e with status := .error,
           settled := match e.settled with
             | none => some .rejectedError
             | some k => some k }

/-- Continuation of `processQueue` when `await item.requestFn()`
resolves: mark `done`, resolve, `totalProcessed++`, exclusive-waiting
check, then `scheduleNextRequest` if the queue is non-empty, else
`processing = false`. -/
def workSucceed (s : QState) (item : QItem) (now : Nat) : QState :=
  let s := { s with
    inFlight := none,
    registry := updReg s.registry item.id settleResolved,
    totalProcessed := s.totalProcessed + 1,
    time := now }
  let s := clearWaiting s item
  if s.queue.isEmpty then { s with processing := false }
  else scheduleNextRequest s now

/-- Continuation of `processQueue` when `await item.requestFn()`
rejects: mark `error`, reject, `totalErrors++`.  `rateLimited` records
whether `error.message.includes('430')`; in this class that test only
selects a log line — the catch block performs no backoff update. -/
def workFail (s : QState) (item : QItem) (rateLimited : Bool) (now : Nat) :
    QState :=
  let _ := rateLimited
  let s := { s with
    inFlight := none,
    registry := updReg s.registry item.id settleRejected,
    totalErrors := s.totalErrors + 1,
    time := now }
  let s := clearWaiting s item
  if s.queue.isEmpty then { s with processing := false }
  else scheduleNextRequest s now

/-- Source: `pause()`. -/
def pause (s : QState) (now : Nat) : QState :=
  { s with paused := true, time := now }

/-- Source: `resume()`: clears `paused`, then
`if (queue.length > 0 && !processing && !requestScheduled) scheduleNextRequest()`. -/
def resume (s : QState) (now : Nat) : QState :=
  let s := { s with paused := false, time := now }
  if !s.queue.isEmpty && !s.processing && s.scheduledAt.isNone then
    scheduleNextRequest s now
  else s

/-- Source: `pauseScheduler()`. -/
def pauseScheduler (s : QState) (now : Nat) : QState :=
  { s with schedulerPaused := true, time := now }

/-- Source: `resumeScheduler()`. -/
def resumeScheduler (s : QState) (now : Nat) : QState :=
  { s with schedulerPaused := false, time := now }

/-- Source: `isSchedulerPaused()`. -/
def isSchedulerPaused (s : QState) : Bool :=
  s.schedulerPaused

/-- Source: `isGloballyPaused()`. -/
def isGloballyPaused (s : QState) : Bool :=
  s.globalUserPause

/-- Source: `isExclusiveMode()`. -/
def isExclusiveMode (s : QState) : Bool :=
  s.exclusiveMode

/-- Source: `getEstimatedWaitTimeForRequest(id)`. -/
def getEstimatedWaitTimeForRequest (s : QState) (id : Nat) (now : Nat) :
    Option Nat :=
  match lookupReg s.registry id with
  | none => none
  | some _ =>
    match s.queue.findIdx? (fun q => q.id == id) with
    | none => some 0
    | some index =>
      some (rateWait s.lastRequestTime now + index * FREE_TIER_RATE_LIMIT_MS)

/-- Source: `getRequestStatus(id)`. -/
def getRequestStatus (s : QState) (id : Nat) : Option Entry :=
  lookupReg s.registry id

/-- One event-loop step of the system: an external call into the class,
the firing of the pending timer, or the settlement of the in-flight
unit of work.  `now` is `Date.now()` at the step: monotone and (being
milliseconds since the epoch) strictly positive. -/
inductive Step : QState → QState → Prop where
  | addRequest (s : QState) (now : Nat) (isUserRequest : Bool)
      (description : String) (ht : s.time ≤ now) (hp : 0 < now) :
      Step s (addRequest s now isUserRequest description).1
  | addCriticalRequest (s : QState) (now : Nat) (description : String)
      (exclusiveId : Option String) (ht : s.time ≤ now) (hp : 0 < now) :
      Step s (addCriticalRequest s now description exclusiveId).1
  | addUserCriticalRequest (s : QState) (now : Nat) (description : String)
      (ht : s.time ≤ now) (hp : 0 < now) :
      Step s (addUserCriticalRequest s now description).1
  | fireTimer (s : QState) (now d : Nat) (ht : s.time ≤ now) (hp : 0 < now)
      (hs : s.scheduledAt = some d) (hd : d ≤ now) :
      Step s (fireTimer s now)
  | workSucceed (s : QState) (item : QItem) (now : Nat) (ht : s.time ≤ now)
      (hp : 0 < now) (hi : s.inFlight = some item) :
      Step s (workSucceed s item now)
  | workFail (s : QState) (item : QItem) (rateLimited : Bool) (now : Nat)
      (ht : s.time ≤ now) (hp : 0 < now) (hi : s.inFlight = some item) :
      Step s (workFail s item rateLimited now)
  | enterExclusiveMode (s : QState) (preserveUserRequests : Bool) (now : Nat)
      (ht : s.time ≤ now) (hp : 0 < now) :
      Step s (enterExclusiveMode s preserveUserRequests now)
  | exitExclusiveMode (s : QState) (now : Nat) (ht : s.time ≤ now)
      (hp : 0 < now) :
      Step s (exitExclusiveMode s now)
  | pause (s : QState) (now : Nat) (ht : s.time ≤ now) (hp : 0 < now) :
      Step s (pause s now)
  | resume (s : QState) (now : Nat) (ht : s.time ≤ now) (hp : 0 < now) :
      Step s (resume s now)
  | pauseScheduler (s : QState) (now : Nat) (ht : s.time ≤ now)
      (hp : 0 < now) :
      Step s (pauseScheduler s now)
  | resumeScheduler (s : QState) (now : Nat) (ht : s.time ≤ now)
      (hp : 0 < now) :
      Step s (resumeScheduler s now)

/-- States reachable from the freshly constructed singleton. -/
def Reachable (s : QState) : Prop :=
  Relation.ReflTransGen Step init s

/-! ### Registry (`requestStatusMap`) lemmas -/

theorem lookup_nil (id : Nat) : lookupReg [] id = none := rfl

theorem lookup_cons (p : Nat × Entry) (r : List (Nat × Entry)) (qid : Nat) :
    lookupReg (p :: r) qid =
      if p.1 = qid then some p.2 else lookupReg r qid := by
  unfold lookupReg
  by_cases h : p.1 = qid
  · rw [List.find?_cons_of_pos _ (by simpa using h), if_pos h]
    rfl
  · rw [List.find?_cons_of_neg _ (by simpa using h), if_neg h]

theorem updReg_cons (p : Nat × Entry) (r : List (Nat × Entry)) (id : Nat)
    (f : Entry → Entry) :
    updReg (p :: r) id f =
      (if p.1 = id then (p.1, f p.2) else p) :: updReg r id f := by
  unfold updReg
  rw [List.map_cons]
  by_cases h : p.1 = id <;> simp [h]

theorem lookup_updReg_eq (r : List (Nat × Entry)) (id : Nat) (f : Entry → Entry) :
    lookupReg (updReg r id f) id = (lookupReg r id).map f := by
  induction r with
  | nil => rfl
  | cons p r ih =>
    rw [updReg_cons]
    by_cases h : p.1 = id
    · rw [if_pos h, lookup_cons, lookup_cons, if_pos h, if_pos h]
      rfl
    · rw [if_neg h, lookup_cons, lookup_cons, if_neg h, if_neg h]
      exact ih

theorem lookup_updReg_ne (r : List (Nat × Entry)) (id qid : Nat)
    (f : Entry → Entry) (h : qid ≠ id) :
    lookupReg (updReg r id f) qid = lookupReg r qid := by
  induction r with
  | nil => rfl
  | cons p r ih =>
    rw [updReg_cons]
    by_cases hp : p.1 = id
    · have hq : ¬ p.1 = qid := by omega
      rw [if_pos hp, lookup_cons, lookup_cons, if_neg (by simpa using hq),
        if_neg hq]
      exact ih
    · rw [if_neg hp, lookup_cons, lookup_cons]
      by_cases hq : p.1 = qid
      · rw [if_pos hq, if_pos hq]
      · rw [if_neg hq, if_neg hq]
        exact ih

theorem lookup_append_right (r : List (Nat × Entry)) (id : Nat) (e : Entry)
    (h : lookupReg r id = none) :
    lookupReg (r ++ [(id, e)]) id = some e := by
  induction r with
  | nil => simp [lookup_cons]
  | cons p r ih =>
    rw [lookup_cons] at h
    rw [List.cons_append, lookup_cons]
    by_cases hp : p.1 = id
    · rw [if_pos hp] at h
      exact absurd h (by simp)
    · rw [if_neg hp] at h ⊢
      exact ih h

theorem lookup_append_ne (r : List (Nat × Entry)) (id qid : Nat) (e : Entry)
    (h : qid ≠ id) :
    lookupReg (r ++ [(id, e)]) qid = lookupReg r qid := by
  induction r with
  | nil => simp [lookup_cons, Ne.symm h]
  | cons p r ih =>
    rw [List.cons_append, lookup_cons, lookup_cons]
    by_cases hp : p.1 = qid
    · rw [if_pos hp, if_pos hp]
    · rw [if_neg hp, if_neg hp]
      exact ih

theorem any_eq_lookup_isSome (r : List (Nat × Entry)) (id : Nat) :
    r.any (fun p => p.1 == id) = (lookupReg r id).isSome := by
  induction r with
  | nil => rfl
  | cons p r ih =>
    rw [List.any_cons, lookup_cons]
    by_cases hp : p.1 = id
    · simp [hp]
    · simp only [if_neg hp, show (p.1 == id) = false by simpa using hp,
        Bool.false_or]
      exact ih

theorem lookup_setReg_self (r : List (Nat × Entry)) (id : Nat) (e : Entry) :
    lookupReg (setReg r id e) id = some e := by
  unfold setReg
  rw [any_eq_lookup_isSome]
  cases h : lookupReg r id with
  | none => simpa using lookup_append_right r id e h
  | some e' => simpa using (lookup_updReg_eq r id (fun _ => e)).trans (by rw [h]; rfl)

theorem lookup_setReg_ne (r : List (Nat × Entry)) (id qid : Nat) (e : Entry)
    (h : qid ≠ id) :
    lookupReg (setReg r id e) qid = lookupReg r qid := by
  unfold setReg
  split
  · exact lookup_updReg_ne r id qid _ h
  · exact lookup_append_ne r id qid e h

theorem setReg_of_fresh (r : List (Nat × Entry)) (id : Nat) (e : Entry)
    (h : lookupReg r id = none) :
    setReg r id e = r ++ [(id, e)] := by
  unfold setReg
  rw [any_eq_lookup_isSome, h]
  rfl

theorem length_updReg (r : List (Nat × Entry)) (id : Nat) (f : Entry → Entry) :
    (updReg r id f).length = r.length := by
  simp [updReg]

theorem length_setReg (r : List (Nat × Entry)) (id : Nat) (e : Entry) :
    r.length ≤ (setReg r id e).length := by
  unfold setReg
  split
  · simp [length_updReg]
  · simp

theorem mem_updReg (r : List (Nat × Entry)) (id : Nat) (f : Entry → Entry)
    (p : Nat × Entry) (hp : p ∈ updReg r id f) :
    ∃ q ∈ r, p.1 = q.1 ∧
      ((p.1 ≠ id ∧ p.2 = q.2) ∨ (p.1 = id ∧ p.2 = f q.2)) := by
  simp only [updReg, List.mem_map] at hp
  obtain ⟨q, hq, hpe⟩ := hp
  refine ⟨q, hq, ?_⟩
  by_cases h : q.1 = id
  · rw [if_pos (by simpa using h)] at hpe
    subst hpe
    exact ⟨rfl, Or.inr ⟨h, rfl⟩⟩
  · rw [if_neg (by simpa using h)] at hpe
    subst hpe
    exact ⟨rfl, Or.inl ⟨h, rfl⟩⟩

theorem mem_setReg_key (r : List (Nat × Entry)) (id : Nat) (e : Entry)
    (p : Nat × Entry) (hp : p ∈ setReg r id e) :
    p.1 = id ∨ ∃ q ∈ r, p.1 = q.1 := by
  unfold setReg at hp
  split at hp
  · obtain ⟨q, hq, h1, _⟩ := mem_updReg r id (fun _ => e) p hp
    exact Or.inr ⟨q, hq, h1⟩
  · rcases List.mem_append.1 hp with h | h
    · exact Or.inr ⟨p, h, rfl⟩
    · simp only [List.mem_singleton] at h
      exact Or.inl (by rw [h])

theorem mem_setReg_or (r : List (Nat × Entry)) (id : Nat) (e : Entry)
    (p : Nat × Entry) (hp : p ∈ setReg r id e) :
    p.2 = e ∨ p ∈ r := by
  unfold setReg at hp
  split at hp
  · obtain ⟨q, hq, h1, h2⟩ := mem_updReg r id (fun _ => e) p hp
    rcases h2 with ⟨_, h2⟩ | ⟨_, h2⟩
    · right
      have : p = q := by
        rcases p with ⟨a, b⟩; rcases q with ⟨c, d⟩
        simp only [Prod.mk.injEq]
        exact ⟨h1, h2⟩
      exact this ▸ hq
    · exact Or.inl h2
  · rcases List.mem_append.1 hp with h | h
    · exact Or.inr h
    · simp only [List.mem_singleton] at h
      exact Or.inl (by rw [h])

theorem lookup_mem (r : List (Nat × Entry)) (id : Nat) (e : Entry)
    (h : lookupReg r id = some e) : (id, e) ∈ r := by
  induction r with
  | nil => simp [lookup_nil] at h
  | cons p r ih =>
    rw [lookup_cons] at h
    by_cases hp : p.1 = id
    · rw [if_pos hp] at h
      have h2 : p.2 = e := Option.some.inj h
      have hpe : p = (id, e) := by
        rcases p with ⟨a, b⟩
        simp only [Prod.mk.injEq]
        exact ⟨hp, h2⟩
      exact hpe ▸ List.mem_cons_self p r
    · rw [if_neg hp] at h
      exact List.mem_cons_of_mem _ (ih h)

theorem countProcessing_nil : countProcessing [] = 0 := rfl

theorem countProcessing_eq_zero (r : List (Nat × Entry)) :
    countProcessing r = 0 ↔ ∀ p ∈ r, p.2.status ≠ Status.processing := by
  simp only [countProcessing, List.length_eq_zero, List.filter_eq_nil]
  constructor
  · intro h p hp hs
    exact absurd (by simpa [hs] : (p.2.status == Status.processing) = true) (by simpa using h p hp)
  · intro h p hp
    simpa using h p hp

theorem countProcessing_updReg_statusPreserving (r : List (Nat × Entry))
    (id : Nat) (f : Entry → Entry) (hf : ∀ e, (f e).status = e.status) :
    countProcessing (updReg r id f) = countProcessing r := by
  induction r with
  | nil => rfl
  | cons p r ih =>
    by_cases hp : p.1 = id
    · simp only [countProcessing, updReg, List.map_cons, hp, beq_self_eq_true,
        if_true, List.filter_cons, hf p.2] at *
      split <;> simpa [countProcessing, updReg] using ih
    · simp only [countProcessing, updReg, List.map_cons,
        show (p.1 == id) = false by simpa using hp, Bool.false_eq_true,
        if_false, List.filter_cons] at *
      split <;> simpa [countProcessing, updReg] using ih

theorem countProcessing_append_pending (r : List (Nat × Entry)) (id : Nat)
    (e : Entry) (he : e.status ≠ Status.processing) :
    countProcessing (r ++ [(id, e)]) = countProcessing r := by
  simp [countProcessing, List.filter_append, List.filter_cons,
    show (e.status == Status.processing) = false by simpa using he]

theorem countProcessing_setReg_notProcessing (r : List (Nat × Entry)) (id : Nat)
    (e : Entry) (he : e.status ≠ Status.processing)
    (hr : countProcessing r = 0) :
    countProcessing (setReg r id e) = 0 := by
  unfold setReg
  split
  · rw [countProcessing_eq_zero] at hr ⊢
    intro p hp
    obtain ⟨q, hq, _, h2⟩ := mem_updReg r id (fun _ => e) p hp
    rcases h2 with ⟨_, h2⟩ | ⟨_, h2⟩
    · rw [h2]; exact hr q hq
    · rw [h2]; exact he
  · rw [countProcessing_append_pending r id e he]
    exact hr

theorem countProcessing_updReg_toNonProcessing (r : List (Nat × Entry))
    (id : Nat) (f : Entry → Entry)
    (honly : ∀ p ∈ r, p.2.status = Status.processing → p.1 = id)
    (hf : ∀ e, (f e).status ≠ Status.processing) :
    countProcessing (updReg r id f) = 0 := by
  rw [countProcessing_eq_zero]
  intro p hp hs
  obtain ⟨q, hq, h1, h2⟩ := mem_updReg r id f p hp
  rcases h2 with ⟨hne, h2⟩ | ⟨_, h2⟩
  · exact hne (h1 ▸ honly q hq (h2 ▸ hs))
  · exact hf q.2 (h2 ▸ hs)

/-! ### Lemmas about the `enterExclusiveMode` settle fold -/

theorem settleCanceled_status (e : Entry) :
    (settleCanceled e).status = e.status := rfl

theorem settleCanceled_idem (e : Entry) :
    settleCanceled (settleCanceled e) = settleCanceled e := by
  unfold settleCanceled
  cases e.settled <;> rfl

theorem map_settleCanceled_idem (x : Option Entry) :
    (x.map settleCanceled).map settleCanceled = x.map settleCanceled := by
  cases x with
  | none => rfl
  | some e => simp [settleCanceled_idem]

theorem settleFold_nil (pres : Bool) (r : List (Nat × Entry)) :
    settleFold pres [] r = r := rfl

theorem settleFold_cons (pres : Bool) (it : QItem) (l : List QItem)
    (r : List (Nat × Entry)) :
    settleFold pres (it :: l) r =
      settleFold pres l
        (if keepInExclusive pres it then r else updReg r it.id settleCanceled) :=
  rfl

theorem lookup_settleFold_or (pres : Bool) (l : List QItem)
    (r : List (Nat × Entry)) (qid : Nat) :
    lookupReg (settleFold pres l r) qid = lookupReg r qid ∨
      lookupReg (settleFold pres l r) qid =
        (lookupReg r qid).map settleCanceled := by
  induction l generalizing r with
  | nil => exact Or.inl rfl
  | cons it l ih =>
    rw [settleFold_cons]
    split
    · exact ih r
    · rcases ih (updReg r it.id settleCanceled) with h | h
      · by_cases hq : qid = it.id
        · right
          rw [h, hq, lookup_updReg_eq]
        · left
          rw [h, lookup_updReg_ne _ _ _ _ hq]
      · by_cases hq : qid = it.id
        · right
          rw [h, hq, lookup_updReg_eq, map_settleCanceled_idem]
        · right
          rw [h, lookup_updReg_ne _ _ _ _ hq]

theorem length_settleFold (pres : Bool) (l : List QItem)
    (r : List (Nat × Entry)) :
    (settleFold pres l r).length = r.length := by
  induction l generalizing r with
  | nil => rfl
  | cons it l ih =>
    rw [settleFold_cons]
    split
    · exact ih r
    · rw [ih, length_updReg]

theorem mem_settleFold (pres : Bool) (l : List QItem)
    (r : List (Nat × Entry)) (p : Nat × Entry)
    (hp : p ∈ settleFold pres l r) :
    ∃ q ∈ r, p.1 = q.1 ∧ p.2.status = q.2.status := by
  induction l generalizing r with
  | nil => exact ⟨p, hp, rfl, rfl⟩
  | cons it l ih =>
    rw [settleFold_cons] at hp
    split at hp
    · exact ih r hp
    · obtain ⟨q, hq, h1, h2⟩ := ih _ hp
      obtain ⟨q', hq', h1', h2'⟩ := mem_updReg r it.id settleCanceled q hq
      refine ⟨q', hq', h1.trans h1', ?_⟩
      rcases h2' with ⟨_, h'⟩ | ⟨_, h'⟩
      · rw [h2, h']
      · rw [h2, h', settleCanceled_status]

theorem countProcessing_settleFold (pres : Bool) (l : List QItem)
    (r : List (Nat × Entry)) :
    countProcessing (settleFold pres l r) = countProcessing r := by
  induction l generalizing r with
  | nil => rfl
  | cons it l ih =>
    rw [settleFold_cons]
    split
    · exact ih r
    · rw [ih, countProcessing_updReg_statusPreserving _ _ _ settleCanceled_status]

theorem lookup_settleFold_untouched (pres : Bool) (l : List QItem)
    (r : List (Nat × Entry)) (qid : Nat)
    (h : ∀ it ∈ l, keepInExclusive pres it = false → it.id ≠ qid) :
    lookupReg (settleFold pres l r) qid = lookupReg r qid := by
  induction l generalizing r with
  | nil => rfl
  | cons it l ih =>
    rw [settleFold_cons]
    have hl : ∀ it' ∈ l, keepInExclusive pres it' = false → it'.id ≠ qid :=
      fun it' h1 h2 => h it' (List.mem_cons_of_mem _ h1) h2
    split
    · exact ih r hl
    · rename_i hkeep
      rw [ih _ hl,
        lookup_updReg_ne _ _ _ _
          (Ne.symm (h it (List.mem_cons_self _ _) (by simpa using hkeep)))]

theorem lookup_settleFold_rejected (pres : Bool) (l : List QItem)
    (r : List (Nat × Entry)) (it : QItem)
    (hnd : (l.map QItem.id).Nodup) (hit : it ∈ l)
    (hkeep : keepInExclusive pres it = false) :
    lookupReg (settleFold pres l r) it.id =
      (lookupReg r it.id).map settleCanceled := by
  induction l generalizing r with
  | nil => simp at hit
  | cons x l ih =>
    rw [List.map_cons, List.nodup_cons] at hnd
    rcases List.mem_cons.1 hit with rfl | hmem
    · rw [settleFold_cons, if_neg (by simpa using hkeep)]
      rw [lookup_settleFold_untouched pres l _ it.id
        (fun it' h1 _ => fun he =>
          hnd.1 (he ▸ List.mem_map_of_mem QItem.id h1))]
      rw [lookup_updReg_eq]
    · rw [settleFold_cons]
      have hne : x.id ≠ it.id := fun he =>
        hnd.1 (he ▸ List.mem_map_of_mem QItem.id hmem)
      split
      · exact ih _ hnd.2 hmem
      · rw [ih _ hnd.2 hmem, lookup_updReg_ne _ _ _ _ (Ne.symm hne)]

/-! ### Lemmas about `sortQueue` -/

theorem sortQueue_sorted (q : List QItem) :
    List.Sorted qLE (sortQueue q) :=
  List.sorted_insertionSort qLE q

theorem sortQueue_perm (q : List QItem) : List.Perm (sortQueue q) q :=
  List.perm_insertionSort qLE q

theorem sortQueue_mem {q : List QItem} {x : QItem} :
    x ∈ sortQueue q ↔ x ∈ q :=
  (sortQueue_perm q).mem_iff

theorem sortQueue_nodup_ids (q : List QItem)
    (h : (q.map QItem.id).Nodup) : ((sortQueue q).map QItem.id).Nodup :=
  (((sortQueue_perm q).map QItem.id).nodup_iff).2 h

theorem qLE_refl (x : QItem) : qLE x x :=
  Or.inr ⟨rfl, Nat.le_refl _⟩

theorem sorted_head_min {x : QItem} {rest : List QItem}
    (h : List.Sorted qLE (x :: rest)) :
    ∀ y ∈ x :: rest, qLE x y := by
  intro y hy
  rcases List.mem_cons.1 hy with rfl | hy
  · exact qLE_refl y
  · exact List.rel_of_sorted_cons h y hy

/-! ### Arithmetic facts about `rateWait` -/

theorem rateWait_eq (last now : Nat) (h : last ≤ now) :
    rateWait last now = FREE_TIER_RATE_LIMIT_MS - (now - last) := by
  unfold rateWait FREE_TIER_RATE_LIMIT_MS
  rw [max_def]
  split <;> omega

theorem rateWait_ge (last now : Nat) (h : last ≤ now) :
    last + FREE_TIER_RATE_LIMIT_MS ≤ now + rateWait last now := by
  rw [rateWait_eq last now h]
  unfold FREE_TIER_RATE_LIMIT_MS
  omega

theorem rateWait_pos (last now : Nat) (h : last ≤ now)
    (h2 : now < last + FREE_TIER_RATE_LIMIT_MS) : 0 < rateWait last now := by
  rw [rateWait_eq last now h]
  unfold FREE_TIER_RATE_LIMIT_MS at *
  omega

/-! ### Keys of the registry -/

theorem keys_updReg (r : List (Nat × Entry)) (id : Nat) (f : Entry → Entry) :
    (updReg r id f).map Prod.fst = r.map Prod.fst := by
  induction r with
  | nil => rfl
  | cons p r ih =>
    rw [updReg_cons, List.map_cons, List.map_cons]
    by_cases h : p.1 = id
    · rw [if_pos h, ih]
    · rw [if_neg h, ih]

theorem keys_settleFold (pres : Bool) (l : List QItem)
    (r : List (Nat × Entry)) :
    (settleFold pres l r).map Prod.fst = r.map Prod.fst := by
  induction l generalizing r with
  | nil => rfl
  | cons it l ih =>
    rw [settleFold_cons]
    split
    · exact ih r
    · rw [ih, keys_updReg]

theorem countProcessing_le_one (r : List (Nat × Entry)) (id : Nat)
    (hnd : (r.map Prod.fst).Nodup)
    (honly : ∀ p ∈ r, p.2.status = Status.processing → p.1 = id) :
    countProcessing r ≤ 1 := by
  induction r with
  | nil => exact Nat.zero_le 1
  | cons p r ih =>
    rw [List.map_cons, List.nodup_cons] at hnd
    by_cases hps : p.2.status = Status.processing
    · have hpid : p.1 = id := honly p (List.mem_cons_self _ _) hps
      have hzero : countProcessing r = 0 := by
        rw [countProcessing_eq_zero]
        intro q hq hqs
        have hqid : q.1 = id := honly q (List.mem_cons_of_mem _ hq) hqs
        exact hnd.1
          ((hpid.trans hqid.symm) ▸ List.mem_map_of_mem Prod.fst hq)
      unfold countProcessing at hzero ⊢
      rw [List.filter_cons, if_pos (by simpa using hps), List.length_cons,
        hzero]
    · unfold countProcessing at ih ⊢
      rw [List.filter_cons, if_neg (by simpa using hps)]
      exact ih hnd.2 (fun q hq hqs => honly q (List.mem_cons_of_mem _ hq) hqs)

/-! ### The inductive invariant of the event loop -/

/-- Source: `gapOK a b`: the dispatch recorded by `a` started at least the rate
interval after the earlier dispatch recorded by `b`, provided some
request had already been processed when `a` started. -/
def gapOK (a b : DispatchRec) : Prop :=
  0 < a.p → b.t + FREE_TIER_RATE_LIMIT_MS ≤ a.t

/-- The inductive invariant satisfied by every reachable state. -/
structure Inv (s : QState) : Prop where
  keysLt : ∀ p ∈ s.registry, p.1 < s.nextId
  keysNodup : (s.registry.map Prod.fst).Nodup
  queueReg : ∀ it ∈ s.queue, ∃ e, lookupReg s.registry it.id = some e ∧
      e.status = Status.pending
  queueNodup : (s.queue.map QItem.id).Nodup
  queueSorted : List.Sorted qLE s.queue
  flightNone : s.inFlight = none → countProcessing s.registry = 0
  flightOnly : ∀ it, s.inFlight = some it →
      ∀ p ∈ s.registry, p.2.status = Status.processing → p.1 = it.id
  flightFlags : ∀ it, s.inFlight = some it →
      s.processing = true ∧ s.scheduledAt = none
  flightQueue : ∀ it, s.inFlight = some it → ∀ q ∈ s.queue, q.id ≠ it.id
  flightFresh : ∀ it, s.inFlight = some it → it.id < s.nextId
  flightLast : s.inFlight.isSome → 0 < s.lastRequestTime
  lastLeTime : s.lastRequestTime ≤ s.time
  schedBound : ∀ d, s.scheduledAt = some d → 0 < s.totalProcessed →
      s.lastRequestTime + FREE_TIER_RATE_LIMIT_MS ≤ d
  tpLast : 0 < s.totalProcessed → 0 < s.lastRequestTime
  dispHead : ∀ rec rs, s.dispatches = rec :: rs → rec.t = s.lastRequestTime
  dispChain : List.Chain' gapOK s.dispatches
  backoffConst : s.currentBackoffTime = baseBackoffTime ∧
      s.consecutiveErrors = 0

theorem inv_init : Inv init := by
  constructor <;> simp [init, countProcessing, baseBackoffTime]

theorem queueIdLt {s : QState} (hI : Inv s) :
    ∀ it ∈ s.queue, it.id < s.nextId := by
  intro it hit
  obtain ⟨e, he, _⟩ := hI.queueReg it hit
  exact hI.keysLt (it.id, e) (lookup_mem _ _ _ he)

theorem inv_inFlight_none {s : QState} (hI : Inv s)
    (h : s.scheduledAt.isSome) : s.inFlight = none := by
  cases hf : s.inFlight with
  | none => rfl
  | some it =>
    obtain ⟨_, h2⟩ := hI.flightFlags it hf
    rw [h2] at h
    simp at h

theorem inv_guard_none {s : QState} (hI : Inv s)
    (h : s.processing = false) : s.inFlight = none := by
  cases hf : s.inFlight with
  | none => rfl
  | some it =>
    obtain ⟨h1, _⟩ := hI.flightFlags it hf
    rw [h] at h1
    simp at h1

/-- What `scheduleNextRequest` does: either nothing, or it arms the
timer for a deadline that, once a request has been processed, lies at
least the rate interval past `lastRequestTime`. -/
theorem schedule_spec (s : QState) (now : Nat)
    (hlt : s.lastRequestTime ≤ now)
    (htl : 0 < s.totalProcessed → 0 < s.lastRequestTime) :
    scheduleNextRequest s now = s ∨
      (s.scheduledAt = none ∧ ∃ d, now ≤ d ∧
        scheduleNextRequest s now = { s with scheduledAt := some d } ∧
        (0 < s.totalProcessed →
          s.lastRequestTime + FREE_TIER_RATE_LIMIT_MS ≤ d)) := by
  unfold scheduleNextRequest
  split
  · exact Or.inl rfl
  · rename_i hsch
    split
    · exact Or.inl rfl
    · split
      · exact Or.inl rfl
      · have hnone : s.scheduledAt = none :=
          Option.not_isSome_iff_eq_none.1 (by simpa using hsch)
        split
        · rename_i hc
          refine Or.inr ⟨hnone, now, le_refl _, rfl, fun htp => ?_⟩
          simp only [Bool.or_eq_true, beq_iff_eq] at hc
          rcases hc with hc | hc
          · exact absurd (htl htp) (by omega)
          · exact absurd htp (by omega)
        · refine Or.inr ⟨hnone, now + rateWait s.lastRequestTime now,
            Nat.le_add_right _ _, rfl, fun _ => rateWait_ge _ _ hlt⟩

/-- Source: `scheduleNextRequest` preserves the invariant whenever no unit of
work is in flight (which is the case at all its call sites, each being
guarded by `!this.processing` or running after the in-flight item
completed). -/
theorem inv_schedule {s : QState} (now : Nat) (hI : Inv s)
    (hnf : s.inFlight = none) (hlt : s.lastRequestTime ≤ now) :
    Inv (scheduleNextRequest s now) := by
  rcases schedule_spec s now hlt hI.tpLast with h | ⟨_, d, _, h, hb⟩ <;> rw [h]
  · exact hI
  · exact {
      keysLt := hI.keysLt
      keysNodup := hI.keysNodup
      queueReg := hI.queueReg
      queueNodup := hI.queueNodup
      queueSorted := hI.queueSorted
      flightNone := fun _ => hI.flightNone hnf
      flightOnly := fun it hit => by
        rw [show ({ s with scheduledAt := some d } : QState).inFlight
            = s.inFlight from rfl, hnf] at hit
        exact absurd hit (by simp)
      flightFlags := fun it hit => by
        rw [show ({ s with scheduledAt := some d } : QState).inFlight
            = s.inFlight from rfl, hnf] at hit
        exact absurd hit (by simp)
      flightQueue := fun it hit => by
        rw [show ({ s with scheduledAt := some d } : QState).inFlight
            = s.inFlight from rfl, hnf] at hit
        exact absurd hit (by simp)
      flightFresh := fun it hit => by
        rw [show ({ s with scheduledAt := some d } : QState).inFlight
            = s.inFlight from rfl, hnf] at hit
        exact absurd hit (by simp)
      flightLast := fun hit => by
        rw [show ({ s with scheduledAt := some d } : QState).inFlight
            = s.inFlight from rfl, hnf] at hit
        exact absurd hit (by simp)
      lastLeTime := hI.lastLeTime
      schedBound := fun d' hd' htp => by
        have : d = d' := by
          have := hd'
          simp only at this
          exact Option.some.inj this
        exact this ▸ hb htp
      tpLast := hI.tpLast
      dispHead := hI.dispHead
      dispChain := hI.dispChain
      backoffConst := hI.backoffConst }

/-- Frame rule: the invariant only watches the listed fields, so any
operation that leaves them unchanged (up to advancing the clock)
preserves it. -/
theorem inv_of_fields {s t : QState} (hI : Inv s)
    (hreg : t.registry = s.registry) (hnext : s.nextId ≤ t.nextId)
    (hqueue : t.queue = s.queue) (hif : t.inFlight = s.inFlight)
    (hproc : t.processing = s.processing)
    (hsch : t.scheduledAt = s.scheduledAt)
    (hlast : t.lastRequestTime = s.lastRequestTime)
    (htime : s.time ≤ t.time) (htp : t.totalProcessed = s.totalProcessed)
    (hdisp : t.dispatches = s.dispatches)
    (hbk : t.currentBackoffTime = s.currentBackoffTime)
    (hce : t.consecutiveErrors = s.consecutiveErrors) : Inv t where
  keysLt := by
    rw [hreg]
    intro p hp
    exact lt_of_lt_of_le (hI.keysLt p hp) hnext
  keysNodup := by rw [hreg]; exact hI.keysNodup
  queueReg := by rw [hreg, hqueue]; exact hI.queueReg
  queueNodup := by rw [hqueue]; exact hI.queueNodup
  queueSorted := by rw [hqueue]; exact hI.queueSorted
  flightNone := by rw [hif, hreg]; exact hI.flightNone
  flightOnly := by rw [hif, hreg]; exact hI.flightOnly
  flightFlags := by rw [hif, hproc, hsch]; exact hI.flightFlags
  flightQueue := by rw [hif, hqueue]; exact hI.flightQueue
  flightFresh := by
    rw [hif]
    intro it hit
    exact lt_of_lt_of_le (hI.flightFresh it hit) hnext
  flightLast := by rw [hif, hlast]; exact hI.flightLast
  lastLeTime := by rw [hlast]; exact hI.lastLeTime.trans htime
  schedBound := by rw [hsch, htp, hlast]; exact hI.schedBound
  tpLast := by rw [htp, hlast]; exact hI.tpLast
  dispHead := by rw [hdisp, hlast]; exact hI.dispHead
  dispChain := by rw [hdisp]; exact hI.dispChain
  backoffConst := by rw [hbk, hce]; exact hI.backoffConst

/-- Admitting a fresh pending item (by `push` or `unshift`, followed by
`sortQueue` and `requestStatusMap.set`) preserves the invariant. -/
theorem inv_admit {s : QState} (hI : Inv s) (now : Nat) (ht : s.time ≤ now)
    (item : QItem) (entry : Entry) (l : List QItem)
    (hl : l = s.queue ++ [item] ∨ l = item :: s.queue)
    (hid : item.id = s.nextId) (hes : entry.status = Status.pending) :
    Inv { s with queue := sortQueue l,
                 registry := setReg s.registry s.nextId entry,
                 nextId := s.nextId + 1, time := now } := by
  have hmem : ∀ x, x ∈ l ↔ x = item ∨ x ∈ s.queue := by
    intro x
    rcases hl with rfl | rfl
    · rw [List.mem_append, List.mem_singleton, or_comm]
    · rw [List.mem_cons]
  have hlnd : (l.map QItem.id).Nodup := by
    have hfresh : item.id ∉ s.queue.map QItem.id := by
      intro hmem'
      obtain ⟨q, hq, hqe⟩ := List.mem_map.1 hmem'
      exact absurd (hqe ▸ queueIdLt hI q hq) (by omega)
    rcases hl with rfl | rfl
    · rw [List.map_append, List.map_singleton, List.nodup_append]
      exact ⟨hI.queueNodup, List.nodup_singleton _,
        by intro a ha hb; rw [List.mem_singleton] at hb; subst hb
           exact hfresh ha⟩
    · rw [List.map_cons, List.nodup_cons]
      exact ⟨hfresh, hI.queueNodup⟩
  have hpend : entry.status ≠ Status.processing := by rw [hes]; intro h; cases h
  have hfresh : lookupReg s.registry s.nextId = none := by
    cases hl' : lookupReg s.registry s.nextId with
    | none => rfl
    | some e' =>
      exact absurd (hI.keysLt _ (lookup_mem _ _ _ hl')) (by omega)
  exact {
    keysLt := by
      intro p hp
      show p.1 < s.nextId + 1
      rcases mem_setReg_key _ _ _ p hp with h | ⟨q, hq, h⟩
      · omega
      · have := hI.keysLt q hq
        omega
    keysNodup := by
      show ((setReg s.registry s.nextId entry).map Prod.fst).Nodup
      rw [setReg_of_fresh _ _ _ hfresh, List.map_append, List.nodup_append]
      refine ⟨hI.keysNodup, List.nodup_singleton _, ?_⟩
      intro a ha hb
      simp only [List.map_cons, List.map_nil, List.mem_singleton] at hb
      subst hb
      obtain ⟨q, hq, hqe⟩ := List.mem_map.1 ha
      exact absurd (hqe ▸ hI.keysLt q hq) (by omega)
    queueReg := by
      intro it hit
      rcases (hmem it).1 (sortQueue_mem.1 hit) with rfl | hold
      · rw [hid, lookup_setReg_self]
        exact ⟨entry, rfl, hes⟩
      · obtain ⟨e, he, hep⟩ := hI.queueReg it hold
        have hne : it.id ≠ s.nextId := by
          have := queueIdLt hI it hold
          omega
        rw [lookup_setReg_ne _ _ _ _ hne]
        exact ⟨e, he, hep⟩
    queueNodup := sortQueue_nodup_ids l hlnd
    queueSorted := sortQueue_sorted l
    flightNone := fun hn =>
      countProcessing_setReg_notProcessing _ _ _ hpend (hI.flightNone hn)
    flightOnly := by
      intro it hit p hp hps
      rcases mem_setReg_or _ _ _ p hp with h | h
      · exact absurd (h ▸ hps) hpend
      · exact hI.flightOnly it hit p h hps
    flightFlags := fun it hit => hI.flightFlags it hit
    flightQueue := by
      intro it hit q hq
      rcases (hmem q).1 (sortQueue_mem.1 hq) with rfl | hold
      · have := hI.flightFresh it hit
        omega
      · exact hI.flightQueue it hit q hold
    flightFresh := fun it hit => Nat.lt_succ_of_lt (hI.flightFresh it hit)
    flightLast := hI.flightLast
    lastLeTime := hI.lastLeTime.trans ht
    schedBound := hI.schedBound
    tpLast := hI.tpLast
    dispHead := hI.dispHead
    dispChain := hI.dispChain
    backoffConst := hI.backoffConst }

/-- Frame rule for states with no work in flight: `processing` may then
change freely, and the timer may be disarmed. -/
theorem inv_of_fields_noFlight {s t : QState} (hI : Inv s)
    (hnf : s.inFlight = none)
    (hreg : t.registry = s.registry) (hnext : t.nextId = s.nextId)
    (hqueue : t.queue = s.queue) (hif : t.inFlight = none)
    (hsch : t.scheduledAt = s.scheduledAt ∨ t.scheduledAt = none)
    (hlast : t.lastRequestTime = s.lastRequestTime)
    (htime : s.time ≤ t.time) (htp : t.totalProcessed = s.totalProcessed)
    (hdisp : t.dispatches = s.dispatches)
    (hbk : t.currentBackoffTime = s.currentBackoffTime)
    (hce : t.consecutiveErrors = s.consecutiveErrors) : Inv t where
  keysLt := by rw [hreg, hnext]; exact hI.keysLt
  keysNodup := by rw [hreg]; exact hI.keysNodup
  queueReg := by rw [hreg, hqueue]; exact hI.queueReg
  queueNodup := by rw [hqueue]; exact hI.queueNodup
  queueSorted := by rw [hqueue]; exact hI.queueSorted
  flightNone := by rw [hreg]; exact fun _ => hI.flightNone hnf
  flightOnly := fun it hit => absurd (hif ▸ hit) (by simp)
  flightFlags := fun it hit => absurd (hif ▸ hit) (by simp)
  flightQueue := fun it hit => absurd (hif ▸ hit) (by simp)
  flightFresh := fun it hit => absurd (hif ▸ hit) (by simp)
  flightLast := fun h => absurd (hif ▸ h) (by simp)
  lastLeTime := by rw [hlast]; exact hI.lastLeTime.trans htime
  schedBound := by
    rcases hsch with h | h
    · rw [h, htp, hlast]; exact hI.schedBound
    · rw [h]; exact fun d hd => absurd hd (by simp)
  tpLast := by rw [htp, hlast]; exact hI.tpLast
  dispHead := by rw [hdisp, hlast]; exact hI.dispHead
  dispChain := by rw [hdisp]; exact hI.dispChain
  backoffConst := by rw [hbk, hce]; exact hI.backoffConst

theorem clearWaiting_eq (s : QState) (it : QItem) :
    ∃ b, clearWaiting s it = { s with waitingForExclusiveRequest := b } := by
  unfold clearWaiting
  split
  · exact ⟨false, rfl⟩
  · exact ⟨s.waitingForExclusiveRequest, rfl⟩

theorem admitGuard_proc {s : QState} (h : admitGuard s = true) :
    s.processing = false := by
  unfold admitGuard at h
  simp only [Bool.and_eq_true, Bool.not_eq_true'] at h
  exact h.1.1

/-! ### Invariant preservation, operation by operation -/

theorem inv_addRequest {s : QState} (hI : Inv s) (now : Nat)
    (ht : s.time ≤ now) (u : Bool) (dsc : String) :
    Inv (addRequest s now u dsc).1 := by
  unfold addRequest
  dsimp only
  generalize (if u = true then USER_REQUEST else SYSTEM_REQUEST) = pri
  split
  · exact inv_of_fields hI rfl (Nat.le_succ _) rfl rfl rfl rfl rfl ht rfl rfl rfl rfl
  · have hI2 := inv_admit hI now ht
      { id := s.nextId, priority := pri,
        timestamp := now, isCritical := false, description := dsc }
      { priority := pri,
        timestamp := now, isCritical := false, description := dsc,
        status := .pending, settled := none }
      _ (Or.inl rfl) rfl rfl
    split
    · rename_i hg
      exact inv_schedule now hI2 (inv_guard_none hI2 (admitGuard_proc hg))
        (le_trans hI.lastLeTime ht)
    · exact hI2

theorem inv_addCriticalRequest {s : QState} (hI : Inv s) (now : Nat)
    (ht : s.time ≤ now) (dsc : String) (eid : Option String) :
    Inv (addCriticalRequest s now dsc eid).1 := by
  unfold addCriticalRequest
  have hIbase : ∀ s' : QState,
      s'.registry = s.registry → s.nextId ≤ s'.nextId → s'.queue = s.queue →
      s'.inFlight = s.inFlight → s'.processing = s.processing →
      s'.scheduledAt = s.scheduledAt →
      s'.lastRequestTime = s.lastRequestTime → s.time ≤ s'.time →
      s'.totalProcessed = s.totalProcessed →
      s'.dispatches = s.dispatches →
      s'.currentBackoffTime = s.currentBackoffTime →
      s'.consecutiveErrors = s.consecutiveErrors → Inv s' :=
    fun s' h1 h2 h3 h4 h5 h6 h7 h8 h9 h10 h11 h12 =>
      inv_of_fields hI h1 h2 h3 h4 h5 h6 h7 h8 h9 h10 h11 h12
  cases eid with
  | some e =>
    dsimp only
    have hI' : Inv { s with exclusiveRequestId := some e } :=
      hIbase _ rfl (le_refl _) rfl rfl rfl rfl rfl (le_refl _) rfl rfl rfl rfl
    have hI2 := inv_admit hI' now ht
      { id := s.nextId, priority := CRITICAL_REQUEST, timestamp := now,
        isCritical := true, description := dsc }
      { priority := CRITICAL_REQUEST, timestamp := now, isCritical := true,
        description := dsc, status := .pending, settled := none }
      _ (Or.inl rfl) rfl rfl
    split
    · rename_i hg
      exact inv_schedule now hI2 (inv_guard_none hI2 (admitGuard_proc hg))
        (le_trans hI.lastLeTime ht)
    · exact hI2
  | none =>
    dsimp only
    have hI2 := inv_admit hI now ht
      { id := s.nextId, priority := CRITICAL_REQUEST, timestamp := now,
        isCritical := true, description := dsc }
      { priority := CRITICAL_REQUEST, timestamp := now, isCritical := true,
        description := dsc, status := .pending, settled := none }
      _ (Or.inl rfl) rfl rfl
    split
    · rename_i hg
      exact inv_schedule now hI2 (inv_guard_none hI2 (admitGuard_proc hg))
        (le_trans hI.lastLeTime ht)
    · exact hI2

theorem inv_addUserCriticalRequest {s : QState} (hI : Inv s) (now : Nat)
    (ht : s.time ≤ now) (dsc : String) :
    Inv (addUserCriticalRequest s now dsc).1 := by
  unfold addUserCriticalRequest
  dsimp only
  have hI' : Inv { s with globalUserPause := true, globalPauseReason := dsc } :=
    inv_of_fields hI rfl (le_refl _) rfl rfl rfl rfl rfl (le_refl _) rfl rfl rfl rfl
  have hI2 := inv_admit hI' now ht
    { id := s.nextId, priority := USER_INITIATED_CRITICAL, timestamp := now,
      isCritical := true, description := dsc }
    { priority := USER_INITIATED_CRITICAL, timestamp := now,
      isCritical := true, description := dsc, status := .pending,
      settled := none }
    _ (Or.inr rfl) rfl rfl
  split
  · rename_i hg
    exact inv_schedule now hI2 (inv_guard_none hI2 (admitGuard_proc hg))
      (le_trans hI.lastLeTime ht)
  · exact hI2

theorem settleResolved_status (e : Entry) :
    (settleResolved e).status = Status.done := rfl

theorem settleRejected_status (e : Entry) :
    (settleRejected e).status = Status.error := rfl

theorem inv_fireTimer {s : QState} (hI : Inv s) (now d : Nat)
    (ht : s.time ≤ now) (hp : 0 < now) (hs : s.scheduledAt = some d)
    (hd : d ≤ now) : Inv (fireTimer s now) := by
  have hnf : s.inFlight = none := inv_inFlight_none hI (by rw [hs]; rfl)
  have hcount : countProcessing s.registry = 0 := hI.flightNone hnf
  unfold fireTimer processQueue
  dsimp only
  split
  · exact inv_of_fields_noFlight hI hnf rfl rfl rfl hnf (Or.inr rfl) rfl ht
      rfl rfl rfl rfl
  · split
    · exact inv_of_fields_noFlight hI hnf rfl rfl rfl hnf (Or.inr rfl) rfl ht
        rfl rfl rfl rfl
    · split
      · exact inv_of_fields_noFlight hI hnf rfl rfl rfl hnf (Or.inr rfl) rfl
          ht rfl rfl rfl rfl
      · rename_i item rest heq
        have heq' : s.queue = item :: rest := heq
        have hmem_item : item ∈ s.queue := heq' ▸ List.mem_cons_self _ _
        have hnd : item.id ∉ rest.map QItem.id ∧ (rest.map QItem.id).Nodup := by
          have h := hI.queueNodup
          rw [heq', List.map_cons, List.nodup_cons] at h
          exact h
        have hsort : List.Sorted qLE (item :: rest) := heq' ▸ hI.queueSorted
        have hcount' := (countProcessing_eq_zero s.registry).1 hcount
        exact {
          keysLt := by
            intro p hpm
            have hpm' : p ∈ updReg s.registry item.id
                (fun e => { e with status := Status.processing }) := hpm
            obtain ⟨q, hq, h1, _⟩ := mem_updReg _ _ _ p hpm'
            show p.1 < s.nextId
            exact h1 ▸ hI.keysLt q hq
          keysNodup := by
            show (((updReg s.registry item.id
              (fun e => { e with status := Status.processing })).map
                Prod.fst)).Nodup
            rw [keys_updReg]
            exact hI.keysNodup
          queueReg := by
            intro q hqr
            have hqs : q ∈ s.queue := heq' ▸ List.mem_cons_of_mem _ hqr
            have hne : q.id ≠ item.id := fun he =>
              hnd.1 (he ▸ List.mem_map_of_mem QItem.id hqr)
            rw [lookup_updReg_ne _ _ _ _ hne]
            exact hI.queueReg q hqs
          queueNodup := hnd.2
          queueSorted := hsort.of_cons
          flightNone := fun h => Option.noConfusion h
          flightOnly := by
            intro it' hit' p hpm hps
            have hii : item = it' := Option.some.inj hit'
            have hpm' : p ∈ updReg s.registry item.id
                (fun e => { e with status := Status.processing }) := hpm
            obtain ⟨q, hq, h1, h2⟩ := mem_updReg _ _ _ p hpm'
            rcases h2 with ⟨_, he⟩ | ⟨hid, _⟩
            · exact absurd (he ▸ hps) (hcount' q hq)
            · exact hii ▸ hid
          flightFlags := fun it' _ => ⟨rfl, rfl⟩
          flightQueue := by
            intro it' hit' q hq
            have hii : item = it' := Option.some.inj hit'
            have hne : q.id ≠ item.id := fun he =>
              hnd.1 (he ▸ List.mem_map_of_mem QItem.id hq)
            exact hii ▸ hne
          flightFresh := fun it' hit' =>
            (Option.some.inj hit') ▸ queueIdLt hI item hmem_item
          flightLast := fun _ => hp
          lastLeTime := le_refl now
          schedBound := fun d' hd' => Option.noConfusion hd'
          tpLast := fun _ => hp
          dispHead := by
            intro rec rs hrec
            obtain ⟨h1, _⟩ := List.cons.inj hrec
            rw [← h1]
          dispChain := by
            rw [List.chain'_cons']
            refine ⟨?_, hI.dispChain⟩
            intro b hb htp
            cases hds : s.dispatches with
            | nil => rw [hds] at hb; simp at hb
            | cons rec rs =>
              rw [hds] at hb
              have hrb : rec = b := by simpa using hb
              have htp' : 0 < s.totalProcessed := htp
              have hrt : rec.t = s.lastRequestTime := hI.dispHead rec rs hds
              have hbd := hI.schedBound d hs htp'
              subst hrb
              show rec.t + FREE_TIER_RATE_LIMIT_MS ≤ now
              omega
          backoffConst := hI.backoffConst }

theorem inv_workSucceed {s : QState} (hI : Inv s) (item : QItem) (now : Nat)
    (ht : s.time ≤ now) (hp : 0 < now) (hi : s.inFlight = some item) :
    Inv (workSucceed s item now) := by
  have hflags := hI.flightFlags item hi
  have hqid := hI.flightQueue item hi
  have hI1 : Inv { s with
      inFlight := none,
      registry := updReg s.registry item.id settleResolved,
      totalProcessed := s.totalProcessed + 1,
      time := now } := {
    keysLt := by
      intro p hpm
      obtain ⟨q, hq, h1, _⟩ := mem_updReg _ _ _ p hpm
      show p.1 < s.nextId
      exact h1 ▸ hI.keysLt q hq
    keysNodup := by
      show ((updReg s.registry item.id settleResolved).map Prod.fst).Nodup
      rw [keys_updReg]
      exact hI.keysNodup
    queueReg := by
      intro q hq'
      have hne : q.id ≠ item.id := hqid q hq'
      rw [lookup_updReg_ne _ _ _ _ hne]
      exact hI.queueReg q hq'
    queueNodup := hI.queueNodup
    queueSorted := hI.queueSorted
    flightNone := fun _ =>
      countProcessing_updReg_toNonProcessing _ _ _ (hI.flightOnly item hi)
        (fun e h => by rw [settleResolved_status] at h; exact Status.noConfusion h)
    flightOnly := fun it' hit' => Option.noConfusion hit'
    flightFlags := fun it' hit' => Option.noConfusion hit'
    flightQueue := fun it' hit' => Option.noConfusion hit'
    flightFresh := fun it' hit' => Option.noConfusion hit'
    flightLast := fun h => Bool.noConfusion h
    lastLeTime := le_trans hI.lastLeTime ht
    schedBound := fun d hd => by
      have hd' : s.scheduledAt = some d := hd
      rw [hflags.2] at hd'
      exact Option.noConfusion hd'
    tpLast := fun _ => hI.flightLast (by rw [hi]; rfl)
    dispHead := hI.dispHead
    dispChain := hI.dispChain
    backoffConst := hI.backoffConst }
  have hlast : s.lastRequestTime ≤ now := le_trans hI.lastLeTime ht
  unfold workSucceed clearWaiting
  dsimp only
  split
  · split
    · exact inv_of_fields_noFlight hI1 rfl rfl rfl rfl rfl
        (Or.inl rfl) rfl (le_refl _) rfl rfl rfl rfl
    · exact inv_schedule now
        (inv_of_fields hI1 rfl (le_refl _) rfl rfl rfl rfl rfl (le_refl _)
          rfl rfl rfl rfl) rfl hlast
  · split
    · exact inv_of_fields_noFlight hI1 rfl rfl rfl rfl rfl
        (Or.inl rfl) rfl (le_refl _) rfl rfl rfl rfl
    · exact inv_schedule now hI1 rfl hlast

theorem inv_workFail {s : QState} (hI : Inv s) (item : QItem)
    (rateLimited : Bool) (now : Nat) (ht : s.time ≤ now) (hp : 0 < now)
    (hi : s.inFlight = some item) :
    Inv (workFail s item rateLimited now) := by
  have hflags := hI.flightFlags item hi
  have hqid := hI.flightQueue item hi
  have hI1 : Inv { s with
      inFlight := none,
      registry := updReg s.registry item.id settleRejected,
      totalErrors := s.totalErrors + 1,
      time := now } := {
    keysLt := by
      intro p hpm
      obtain ⟨q, hq, h1, _⟩ := mem_updReg _ _ _ p hpm
      show p.1 < s.nextId
      exact h1 ▸ hI.keysLt q hq
    keysNodup := by
      show ((updReg s.registry item.id settleRejected).map Prod.fst).Nodup
      rw [keys_updReg]
      exact hI.keysNodup
    queueReg := by
      intro q hq'
      have hne : q.id ≠ item.id := hqid q hq'
      rw [lookup_updReg_ne _ _ _ _ hne]
      exact hI.queueReg q hq'
    queueNodup := hI.queueNodup
    queueSorted := hI.queueSorted
    flightNone := fun _ =>
      countProcessing_updReg_toNonProcessing _ _ _ (hI.flightOnly item hi)
        (fun e h => by rw [settleRejected_status] at h; exact Status.noConfusion h)
    flightOnly := fun it' hit' => Option.noConfusion hit'
    flightFlags := fun it' hit' => Option.noConfusion hit'
    flightQueue := fun it' hit' => Option.noConfusion hit'
    flightFresh := fun it' hit' => Option.noConfusion hit'
    flightLast := fun h => Bool.noConfusion h
    lastLeTime := le_trans hI.lastLeTime ht
    schedBound := fun d hd => by
      have hd' : s.scheduledAt = some d := hd
      rw [hflags.2] at hd'
      exact Option.noConfusion hd'
    tpLast := hI.tpLast
    dispHead := hI.dispHead
    dispChain := hI.dispChain
    backoffConst := hI.backoffConst }
  have hlast : s.lastRequestTime ≤ now := le_trans hI.lastLeTime ht
  unfold workFail clearWaiting
  dsimp only
  split
  · split
    · exact inv_of_fields_noFlight hI1 rfl rfl rfl rfl rfl
        (Or.inl rfl) rfl (le_refl _) rfl rfl rfl rfl
    · exact inv_schedule now
        (inv_of_fields hI1 rfl (le_refl _) rfl rfl rfl rfl rfl (le_refl _)
          rfl rfl rfl rfl) rfl hlast
  · split
    · exact inv_of_fields_noFlight hI1 rfl rfl rfl rfl rfl
        (Or.inl rfl) rfl (le_refl _) rfl rfl rfl rfl
    · exact inv_schedule now hI1 rfl hlast

theorem inv_enterExclusiveMode {s : QState} (hI : Inv s) (pres : Bool)
    (now : Nat) (ht : s.time ≤ now) :
    Inv (enterExclusiveMode s pres now) := by
  unfold enterExclusiveMode
  dsimp only
  exact {
    keysLt := by
      intro p hpm
      obtain ⟨q, hq, h1, _⟩ := mem_settleFold _ _ _ p hpm
      show p.1 < s.nextId
      exact h1 ▸ hI.keysLt q hq
    keysNodup := by
      show ((settleFold pres s.queue s.registry).map Prod.fst).Nodup
      rw [keys_settleFold]
      exact hI.keysNodup
    queueReg := by
      intro it hit
      have hqm : it ∈ s.queue := (List.mem_filter.1 hit).1
      obtain ⟨e, he, hpend⟩ := hI.queueReg it hqm
      rcases lookup_settleFold_or pres s.queue s.registry it.id with h | h
      · exact ⟨e, by rw [h]; exact he, hpend⟩
      · refine ⟨settleCanceled e, by rw [h, he]; rfl, ?_⟩
        rw [settleCanceled_status]
        exact hpend
    queueNodup :=
      hI.queueNodup.sublist ((List.filter_sublist _).map QItem.id)
    queueSorted := List.Pairwise.sublist (List.filter_sublist _) hI.queueSorted
    flightNone := fun h => by
      rw [countProcessing_settleFold]
      exact hI.flightNone h
    flightOnly := by
      intro it hit p hpm hps
      obtain ⟨q, hq, h1, h2⟩ := mem_settleFold _ _ _ p hpm
      exact h1 ▸ hI.flightOnly it hit q hq (h2 ▸ hps)
    flightFlags := fun it hit => hI.flightFlags it hit
    flightQueue := fun it hit q hq =>
      hI.flightQueue it hit q (List.mem_filter.1 hq).1
    flightFresh := fun it hit => hI.flightFresh it hit
    flightLast := hI.flightLast
    lastLeTime := le_trans hI.lastLeTime ht
    schedBound := hI.schedBound
    tpLast := hI.tpLast
    dispHead := hI.dispHead
    dispChain := hI.dispChain
    backoffConst := hI.backoffConst }

theorem inv_exitExclusiveMode {s : QState} (hI : Inv s) (now : Nat)
    (ht : s.time ≤ now) : Inv (exitExclusiveMode s now) := by
  have hI1 : Inv { s with
      exclusiveMode := false,
      waitingForExclusiveRequest := false,
      exclusiveRequestId := none,
      time := now } :=
    inv_of_fields hI rfl (le_refl _) rfl rfl rfl rfl rfl ht rfl rfl rfl rfl
  unfold exitExclusiveMode
  dsimp only
  split
  · rename_i hg
    rw [Bool.and_eq_true] at hg
    exact inv_schedule now hI1 (inv_guard_none hI1 (admitGuard_proc hg.2))
      (le_trans hI.lastLeTime ht)
  · exact hI1

theorem inv_pause {s : QState} (hI : Inv s) (now : Nat) (ht : s.time ≤ now) :
    Inv (pause s now) :=
  inv_of_fields hI rfl (le_refl _) rfl rfl rfl rfl rfl ht rfl rfl rfl rfl

theorem inv_resume {s : QState} (hI : Inv s) (now : Nat) (ht : s.time ≤ now) :
    Inv (resume s now) := by
  have hI1 : Inv { s with paused := false, time := now } :=
    inv_of_fields hI rfl (le_refl _) rfl rfl rfl rfl rfl ht rfl rfl rfl rfl
  unfold resume
  dsimp only
  split
  · rename_i hg
    rw [Bool.and_eq_true, Bool.and_eq_true] at hg
    have hproc : s.processing = false := by
      have := hg.1.2
      rwa [Bool.not_eq_true'] at this
    exact inv_schedule now hI1 (inv_guard_none hI1 hproc)
      (le_trans hI.lastLeTime ht)
  · exact hI1

theorem inv_pauseScheduler {s : QState} (hI : Inv s) (now : Nat)
    (ht : s.time ≤ now) : Inv (pauseScheduler s now) :=
  inv_of_fields hI rfl (le_refl _) rfl rfl rfl rfl rfl ht rfl rfl rfl rfl

theorem inv_resumeScheduler {s : QState} (hI : Inv s) (now : Nat)
    (ht : s.time ≤ now) : Inv (resumeScheduler s now) :=
  inv_of_fields hI rfl (le_refl _) rfl rfl rfl rfl rfl ht rfl rfl rfl rfl

theorem inv_step {s s' : QState} (hI : Inv s) (hstep : Step s s') : Inv s' := by
  cases hstep with
  | addRequest now u dsc ht hp => exact inv_addRequest hI now ht u dsc
  | addCriticalRequest now dsc eid ht hp =>
    exact inv_addCriticalRequest hI now ht dsc eid
  | addUserCriticalRequest now dsc ht hp =>
    exact inv_addUserCriticalRequest hI now ht dsc
  | fireTimer now d ht hp hs hd => exact inv_fireTimer hI now d ht hp hs hd
  | workSucceed item now ht hp hi => exact inv_workSucceed hI item now ht hp hi
  | workFail item rl now ht hp hi => exact inv_workFail hI item rl now ht hp hi
  | enterExclusiveMode pres now ht hp => exact inv_enterExclusiveMode hI pres now ht
  | exitExclusiveMode now ht hp => exact inv_exitExclusiveMode hI now ht
  | pause now ht hp => exact inv_pause hI now ht
  | resume now ht hp => exact inv_resume hI now ht
  | pauseScheduler now ht hp => exact inv_pauseScheduler hI now ht
  | resumeScheduler now ht hp => exact inv_resumeScheduler hI now ht

theorem inv_reachable {s : QState} (h : Reachable s) : Inv s := by
  induction h with
  | refl => exact inv_init
  | tail _ hstep ih => exact inv_step ih hstep

/-! ### Shape lemmas: which fields each operation can touch -/

theorem schedule_shape (s : QState) (now : Nat) :
    scheduleNextRequest s now = s ∨
      ∃ d, scheduleNextRequest s now = { s with scheduledAt := some d } := by
  unfold scheduleNextRequest
  split
  · exact Or.inl rfl
  · split
    · exact Or.inl rfl
    · split
      · exact Or.inl rfl
      · split
        · exact Or.inr ⟨now, rfl⟩
        · exact Or.inr ⟨now + rateWait s.lastRequestTime now, rfl⟩

theorem schedule_inFlight (s : QState) (now : Nat) :
    (scheduleNextRequest s now).inFlight = s.inFlight := by
  rcases schedule_shape s now with h | ⟨d, h⟩ <;> rw [h]

theorem schedule_globalUserPause (s : QState) (now : Nat) :
    (scheduleNextRequest s now).globalUserPause = s.globalUserPause := by
  rcases schedule_shape s now with h | ⟨d, h⟩ <;> rw [h]

/-- When the global user pause is on, `scheduleNextRequest` does
nothing at all. -/
theorem schedule_of_globalUserPause (s : QState) (now : Nat)
    (hg : s.globalUserPause = true) : scheduleNextRequest s now = s := by
  unfold scheduleNextRequest
  by_cases h : s.scheduledAt.isSome
  · rw [if_pos h]
  · rw [if_neg h, if_pos hg]

theorem addRequest_inFlight (s : QState) (now : Nat) (u : Bool) (dsc : String) :
    ((addRequest s now u dsc).1).inFlight = s.inFlight := by
  unfold addRequest
  dsimp only
  generalize (if u = true then USER_REQUEST else SYSTEM_REQUEST) = pri
  split
  · rfl
  · split
    · rw [schedule_inFlight]
    · rfl

theorem addCriticalRequest_inFlight (s : QState) (now : Nat) (dsc : String)
    (eid : Option String) :
    ((addCriticalRequest s now dsc eid).1).inFlight = s.inFlight := by
  unfold addCriticalRequest
  cases eid <;> dsimp only <;> split
  · rw [schedule_inFlight]
  · rfl
  · rw [schedule_inFlight]
  · rfl

theorem addUserCriticalRequest_inFlight (s : QState) (now : Nat)
    (dsc : String) :
    ((addUserCriticalRequest s now dsc).1).inFlight = s.inFlight := by
  unfold addUserCriticalRequest
  dsimp only
  split
  · rw [schedule_inFlight]
  · rfl

theorem workSucceed_inFlight (s : QState) (item : QItem) (now : Nat) :
    (workSucceed s item now).inFlight = none := by
  unfold workSucceed clearWaiting
  dsimp only
  split <;> split
  · rfl
  · rw [schedule_inFlight]
  · rfl
  · rw [schedule_inFlight]

theorem workFail_inFlight (s : QState) (item : QItem) (rl : Bool) (now : Nat) :
    (workFail s item rl now).inFlight = none := by
  unfold workFail clearWaiting
  dsimp only
  split <;> split
  · rfl
  · rw [schedule_inFlight]
  · rfl
  · rw [schedule_inFlight]

theorem enterExclusiveMode_inFlight (s : QState) (pres : Bool) (now : Nat) :
    (enterExclusiveMode s pres now).inFlight = s.inFlight := rfl

theorem exitExclusiveMode_inFlight (s : QState) (now : Nat) :
    (exitExclusiveMode s now).inFlight = s.inFlight := by
  unfold exitExclusiveMode
  dsimp only
  split
  · rw [schedule_inFlight]
  · rfl

theorem resume_inFlight (s : QState) (now : Nat) :
    (resume s now).inFlight = s.inFlight := by
  unfold resume
  dsimp only
  split
  · rw [schedule_inFlight]
  · rfl

/-! ### Concrete executions used to instantiate the theorems -/

/-- Three `SYSTEM` requests admitted at t = 1 (ids 0, 1, 2). -/
def w1 : QState := (addRequest init 1 false "a").1

def w2 : QState := (addRequest w1 1 false "b").1

def w2c : QState := (addRequest w2 1 false "c").1

def itemA : QItem :=
  { id := 0, priority := SYSTEM_REQUEST, timestamp := 1, isCritical := false,
    description := "a" }

/-- The timer fires at t = 1 and dispatches request 0. -/
def w3 : QState := fireTimer w2c 1

/-- Request 0 succeeds at t = 2; the next dispatch is scheduled for
t = 2 + (60000 - 1) = 60001. -/
def w4 : QState := workSucceed w3 itemA 2

/-- The timer fires at t = 60001 and dispatches request 1. -/
def w5 : QState := fireTimer w4 60001

theorem w3_reach : Reachable w3 :=
  Relation.ReflTransGen.tail
    (Relation.ReflTransGen.tail
      (Relation.ReflTransGen.tail
        (Relation.ReflTransGen.tail Relation.ReflTransGen.refl
          (Step.addRequest init 1 false "a" (by decide) (by decide)))
        (Step.addRequest w1 1 false "b" (by decide) (by decide)))
      (Step.addRequest w2 1 false "c" (by decide) (by decide)))
    (Step.fireTimer w2c 1 1 (by decide) (by decide) (by decide) (by decide))

theorem w5_reach : Reachable w5 :=
  Relation.ReflTransGen.tail
    (Relation.ReflTransGen.tail w3_reach
      (Step.workSucceed w3 itemA 2 (by decide) (by decide) (by decide)))
    (Step.fireTimer w4 60001 60001 (by decide) (by decide) (by decide)
      (by decide))

/-! ### The claims -/

/-- C1.  Single-flight: in every reachable state of the scheduler, at
most one `WorkItem` in the status registry has status `processing`,
and while one unit of work is in flight no event-loop step starts a
different one — every successor state's in-flight slot holds either
nothing or the same item. -/
theorem single_flight_invariant (s : QState) (h : Reachable s) :
    countProcessing s.registry ≤ 1 ∧
    (∀ it, s.inFlight = some it → ∀ s', Step s s' →
      s'.inFlight = none ∨ s'.inFlight = some it) := by
  have hI := inv_reachable h
  refine ⟨?_, ?_⟩
  · cases hf : s.inFlight with
    | none => rw [hI.flightNone hf]; exact Nat.zero_le 1
    | some it =>
      exact countProcessing_le_one s.registry it.id hI.keysNodup
        (hI.flightOnly it hf)
  · intro it hit s' hstep
    cases hstep with
    | addRequest now u dsc ht hp =>
      right; rw [addRequest_inFlight]; exact hit
    | addCriticalRequest now dsc eid ht hp =>
      right; rw [addCriticalRequest_inFlight]; exact hit
    | addUserCriticalRequest now dsc ht hp =>
      right; rw [addUserCriticalRequest_inFlight]; exact hit
    | fireTimer now d ht hp hs hd =>
      exact absurd hs (by rw [(hI.flightFlags it hit).2]; simp)
    | workSucceed item now ht hp hi =>
      left; rw [workSucceed_inFlight]
    | workFail item rl now ht hp hi =>
      left; rw [workFail_inFlight]
    | enterExclusiveMode pres now ht hp =>
      right; rw [enterExclusiveMode_inFlight]; exact hit
    | exitExclusiveMode now ht hp =>
      right; rw [exitExclusiveMode_inFlight]; exact hit
    | pause now ht hp => right; exact hit
    | resume now ht hp => right; rw [resume_inFlight]; exact hit
    | pauseScheduler now ht hp => right; exact hit
    | resumeScheduler now ht hp => right; exact hit

theorem single_flight_invariant_witness :
    Reachable w3 ∧
    (countProcessing w3.registry ≤ 1 ∧
      (∀ it, w3.inFlight = some it → ∀ s', Step w3 s' →
        s'.inFlight = none ∨ s'.inFlight = some it)) :=
  ⟨w3_reach, single_flight_invariant w3 w3_reach⟩

/-- C2.  Interval invariant: in every reachable state the recorded
dispatch history satisfies: whenever a dispatch started with
`totalProcessed > 0`, its start time is at least
`max FREE_TIER_RATE_LIMIT_MS currentBackoffTime` after the start time
of the previous dispatch; moreover any armed timer's deadline (the
re-evaluated wait) respects the same lower bound past
`lastRequestTime`. -/
theorem dispatch_interval_invariant (s : QState) (h : Reachable s) :
    List.Chain'
      (fun a b => 0 < a.p →
        b.t + max FREE_TIER_RATE_LIMIT_MS s.currentBackoffTime ≤ a.t)
      s.dispatches ∧
    (∀ d, s.scheduledAt = some d → 0 < s.totalProcessed →
      s.lastRequestTime + max FREE_TIER_RATE_LIMIT_MS s.currentBackoffTime
        ≤ d) := by
  have hI := inv_reachable h
  have hmax : max FREE_TIER_RATE_LIMIT_MS s.currentBackoffTime =
      FREE_TIER_RATE_LIMIT_MS := by
    rw [hI.backoffConst.1]
    decide
  constructor
  · simp only [hmax]
    exact hI.dispChain
  · simp only [hmax]
    exact hI.schedBound

theorem dispatch_interval_invariant_witness :
    Reachable w5 ∧
    (List.Chain'
      (fun a b => 0 < a.p →
        b.t + max FREE_TIER_RATE_LIMIT_MS w5.currentBackoffTime ≤ a.t)
      w5.dispatches ∧
    (∀ d, w5.scheduledAt = some d → 0 < w5.totalProcessed →
      w5.lastRequestTime + max FREE_TIER_RATE_LIMIT_MS w5.currentBackoffTime
        ≤ d)) :=
  ⟨w5_reach, dispatch_interval_invariant w5 w5_reach⟩

/-! ### C3: the user-critical path deadlocks -/

/-- Once `addUserCriticalRequest` has set `globalUserPause`, the system
is stuck: the pause is never cleared (no code path in the class calls
`setGlobalUserPause(false)`), no timer is armed, no work is in flight,
and the user-critical item (id 0) stays `pending` with an unsettled
promise; queued items with id 0 are critical, so `enterExclusiveMode`
cannot settle them either. -/
def StuckState (s : QState) : Prop :=
  s.globalUserPause = true ∧ s.scheduledAt = none ∧ s.inFlight = none ∧
  1 ≤ s.nextId ∧
  (getRequestStatus s 0).map Entry.status = some Status.pending ∧
  (getRequestStatus s 0).map Entry.settled = some (none : Option SettleKind) ∧
  (∀ it ∈ s.queue, it.id = 0 → it.isCritical = true)

theorem stuck_admit {s : QState} (hP : StuckState s) (now : Nat)
    (item : QItem) (entry : Entry) (l : List QItem)
    (hmem : ∀ x ∈ l, x = item ∨ x ∈ s.queue)
    (hid : item.id = s.nextId) :
    StuckState { s with
      queue := sortQueue l,
      registry := setReg s.registry s.nextId entry,
      nextId := s.nextId + 1, time := now } := by
  obtain ⟨hg, hsch, hif, hn, hst, hsl, hq⟩ := hP
  have hlook : lookupReg (setReg s.registry s.nextId entry) 0 =
      lookupReg s.registry 0 := lookup_setReg_ne _ _ _ _ (by omega)
  refine ⟨hg, hsch, hif, Nat.le_succ_of_le hn, ?_, ?_, ?_⟩
  · show (lookupReg (setReg s.registry s.nextId entry) 0).map Entry.status = _
    rw [hlook]
    exact hst
  · show (lookupReg (setReg s.registry s.nextId entry) 0).map Entry.settled = _
    rw [hlook]
    exact hsl
  · intro it hit hit0
    rcases hmem it (sortQueue_mem.1 hit) with rfl | hold
    · exact absurd (hid.symm.trans hit0) (by omega)
    · exact hq it hold hit0

theorem stuck_step {s s' : QState} (hP : StuckState s) (h : Step s s') :
    StuckState s' := by
  obtain ⟨hg, hsch, hif, hn, hst, hsl, hq⟩ := hP
  cases h with
  | addRequest now u dsc ht hp =>
    unfold addRequest
    dsimp only
    generalize (if u = true then USER_REQUEST else SYSTEM_REQUEST) = pri
    split
    · exact ⟨hg, hsch, hif, Nat.le_succ_of_le hn, hst, hsl, hq⟩
    · have hS2 := stuck_admit ⟨hg, hsch, hif, hn, hst, hsl, hq⟩ now
        ⟨s.nextId, pri, now, false, dsc⟩
        ⟨pri, now, false, dsc, Status.pending, none⟩
        (s.queue ++ [⟨s.nextId, pri, now, false, dsc⟩])
        (fun x hx => (List.mem_append.1 hx).elim
          (fun h' => Or.inr h')
          (fun h' => Or.inl (List.mem_singleton.1 h')))
        rfl
      split
      · rw [schedule_of_globalUserPause _ _ hS2.1]
        exact hS2
      · exact hS2
  | addCriticalRequest now dsc eid ht hp =>
    unfold addCriticalRequest
    cases eid with
    | some e =>
      dsimp only
      have hS2 := stuck_admit
        (s := { s with exclusiveRequestId := some e })
        ⟨hg, hsch, hif, hn, hst, hsl, hq⟩ now
        ⟨s.nextId, CRITICAL_REQUEST, now, true, dsc⟩
        ⟨CRITICAL_REQUEST, now, true, dsc, Status.pending, none⟩
        (s.queue ++ [⟨s.nextId, CRITICAL_REQUEST, now, true, dsc⟩])
        (fun x hx => (List.mem_append.1 hx).elim
          (fun h' => Or.inr h')
          (fun h' => Or.inl (List.mem_singleton.1 h')))
        rfl
      split
      · rw [schedule_of_globalUserPause _ _ hS2.1]
        exact hS2
      · exact hS2
    | none =>
      dsimp only
      have hS2 := stuck_admit ⟨hg, hsch, hif, hn, hst, hsl, hq⟩ now
        ⟨s.nextId, CRITICAL_REQUEST, now, true, dsc⟩
        ⟨CRITICAL_REQUEST, now, true, dsc, Status.pending, none⟩
        (s.queue ++ [⟨s.nextId, CRITICAL_REQUEST, now, true, dsc⟩])
        (fun x hx => (List.mem_append.1 hx).elim
          (fun h' => Or.inr h')
          (fun h' => Or.inl (List.mem_singleton.1 h')))
        rfl
      split
      · rw [schedule_of_globalUserPause _ _ hS2.1]
        exact hS2
      · exact hS2
  | addUserCriticalRequest now dsc ht hp =>
    unfold addUserCriticalRequest
    dsimp only
    have hS2 := stuck_admit
      (s := { s with globalUserPause := true, globalPauseReason := dsc })
      ⟨rfl, hsch, hif, hn, hst, hsl, hq⟩ now
      ⟨s.nextId, USER_INITIATED_CRITICAL, now, true, dsc⟩
      ⟨USER_INITIATED_CRITICAL, now, true, dsc, Status.pending, none⟩
      (⟨s.nextId, USER_INITIATED_CRITICAL, now, true, dsc⟩ :: s.queue)
      (fun x hx => List.mem_cons.1 hx)
      rfl
    split
    · rw [schedule_of_globalUserPause _ _ hS2.1]
      exact hS2
    · exact hS2
  | fireTimer now d ht hp hs hd =>
    rw [hsch] at hs
    exact Option.noConfusion hs
  | workSucceed item now ht hp hi =>
    rw [hif] at hi
    exact Option.noConfusion hi
  | workFail item rl now ht hp hi =>
    rw [hif] at hi
    exact Option.noConfusion hi
  | enterExclusiveMode pres now ht hp =>
    unfold enterExclusiveMode
    dsimp only
    have huntouched : lookupReg (settleFold pres s.queue s.registry) 0 =
        lookupReg s.registry 0 := by
      apply lookup_settleFold_untouched
      intro it hit hkeep h0
      have hc := hq it hit h0
      rw [keepInExclusive, hc] at hkeep
      simp at hkeep
    refine ⟨hg, hsch, hif, hn, ?_, ?_, ?_⟩
    · show (lookupReg (settleFold pres s.queue s.registry) 0).map
        Entry.status = _
      rw [huntouched]
      exact hst
    · show (lookupReg (settleFold pres s.queue s.registry) 0).map
        Entry.settled = _
      rw [huntouched]
      exact hsl
    · intro it hit h0
      exact hq it (List.mem_filter.1 hit).1 h0
  | exitExclusiveMode now ht hp =>
    unfold exitExclusiveMode
    dsimp only
    have hS1 : StuckState { s with
        exclusiveMode := false,
        waitingForExclusiveRequest := false,
        exclusiveRequestId := none,
        time := now } := ⟨hg, hsch, hif, hn, hst, hsl, hq⟩
    split
    · rw [schedule_of_globalUserPause _ _ hS1.1]
      exact hS1
    · exact hS1
  | pause now ht hp => exact ⟨hg, hsch, hif, hn, hst, hsl, hq⟩
  | resume now ht hp =>
    unfold resume
    dsimp only
    have hS1 : StuckState { s with paused := false, time := now } :=
      ⟨hg, hsch, hif, hn, hst, hsl, hq⟩
    split
    · rw [schedule_of_globalUserPause _ _ hS1.1]
      exact hS1
    · exact hS1
  | pauseScheduler now ht hp => exact ⟨hg, hsch, hif, hn, hst, hsl, hq⟩
  | resumeScheduler now ht hp => exact ⟨hg, hsch, hif, hn, hst, hsl, hq⟩

/-- The state right after `addUserCriticalRequest` is called on the
fresh singleton. -/
def s_user : QState := (addUserCriticalRequest init 1 "user critical").1

/-- C3 (refuting the claim; the code deadlocks).  After
`addUserCriticalRequest` runs, in EVERY later reachable state the
global pause is still on, the admitted user-critical item (id 0) is
still `pending`, its promise has never settled, and no unit of work is
in flight: the work is never executed, the cleanup never runs, and
queue processing never resumes, because `setGlobalUserPause(false)` is
called nowhere and both `scheduleNextRequest` and `processQueue`
return early while `globalUserPause` is set. -/
theorem addUserCriticalRequest_deadlock :
    ∀ s', Relation.ReflTransGen Step s_user s' →
      s'.globalUserPause = true ∧ s'.inFlight = none ∧
      (getRequestStatus s' 0).map Entry.status = some Status.pending ∧
      (getRequestStatus s' 0).map Entry.settled =
        some (none : Option SettleKind) := by
  have h0 : StuckState s_user := by
    refine ⟨?_, ?_, ?_, ?_, ?_, ?_, ?_⟩ <;> decide
  intro s' hr
  have hP : StuckState s' := by
    induction hr with
    | refl => exact h0
    | tail _ hstep ih => exact stuck_step ih hstep
  exact ⟨hP.1, hP.2.2.1, hP.2.2.2.2.1, hP.2.2.2.2.2.1⟩

theorem addUserCriticalRequest_deadlock_witness :
    s_user.globalUserPause = true ∧ s_user.inFlight = none ∧
    (getRequestStatus s_user 0).map Entry.status = some Status.pending ∧
    (getRequestStatus s_user 0).map Entry.settled =
      some (none : Option SettleKind) :=
  addUserCriticalRequest_deadlock s_user Relation.ReflTransGen.refl

/-! ### C4: the backoff state is never updated -/

def b1 : QState := (addRequest init 1 false "r1").1

def b2 : QState := (addRequest b1 1 false "r2").1

def b3 : QState := (addRequest b2 1 false "r3").1

def b4 : QState := fireTimer b3 1

def b5 : QState :=
  workFail b4 ⟨0, SYSTEM_REQUEST, 1, false, "r1"⟩ true 2

def b6 : QState := fireTimer b5 2

def b7 : QState :=
  workFail b6 ⟨1, SYSTEM_REQUEST, 1, false, "r2"⟩ true 3

def b8 : QState := fireTimer b7 3

def b9 : QState :=
  workFail b8 ⟨2, SYSTEM_REQUEST, 1, false, "r3"⟩ true 4

theorem b5_reach : Reachable b5 := by
  have h1 : Step init b1 :=
    Step.addRequest init 1 false "r1" (by decide) (by decide)
  have h2 : Step b1 b2 :=
    Step.addRequest b1 1 false "r2" (by decide) (by decide)
  have h3 : Step b2 b3 :=
    Step.addRequest b2 1 false "r3" (by decide) (by decide)
  have h4 : Step b3 b4 :=
    Step.fireTimer b3 1 1 (by decide) (by decide) (by decide) (by decide)
  have h5 : Step b4 b5 :=
    Step.workFail b4 ⟨0, SYSTEM_REQUEST, 1, false, "r1"⟩ true 2
      (by decide) (by decide) (by decide)
  exact ((((Relation.ReflTransGen.refl.tail h1).tail h2).tail h3).tail
    h4).tail h5

theorem b9_reach : Reachable b9 := by
  have h6 : Step b5 b6 :=
    Step.fireTimer b5 2 2 (by decide) (by decide) (by decide) (by decide)
  have h7 : Step b6 b7 :=
    Step.workFail b6 ⟨1, SYSTEM_REQUEST, 1, false, "r2"⟩ true 3
      (by decide) (by decide) (by decide)
  have h8 : Step b7 b8 :=
    Step.fireTimer b7 3 3 (by decide) (by decide) (by decide) (by decide)
  have h9 : Step b8 b9 :=
    Step.workFail b8 ⟨2, SYSTEM_REQUEST, 1, false, "r3"⟩ true 4
      (by decide) (by decide) (by decide)
  exact (((b5_reach.tail h6).tail h7).tail h8).tail h9

/-- C4 (refuting the claim; the backoff fields are dead code).  Three
consecutive dispatched requests fail with errors whose message
contains '430' (a provider rate-limit rejection): `totalErrors` rises
to 3, but the catch block of `processQueue` leaves
`consecutiveErrors = 0` and `currentBackoffTime = baseBackoffTime`
untouched — the backoff is NOT raised to
`min maxBackoffTime (baseBackoffTime * 2 ^ 3) = 8000`, and
`scheduleNextRequest` never consults `currentBackoffTime` anyway. -/
theorem backoff_never_updated :
    Reachable b9 ∧
    b9.totalErrors = 3 ∧
    b9.consecutiveErrors = 0 ∧
    b9.currentBackoffTime = baseBackoffTime ∧
    b9.currentBackoffTime ≠ min maxBackoffTime (baseBackoffTime * 2 ^ 3) :=
  ⟨b9_reach, by decide, by decide, by decide, by decide⟩

/-! ### C5: the scheduling wait formula -/

/-- C5 counterexample (refuting the claim as stated).  In the reachable
state `b5` a dispatch has already occurred (`lastRequestTime = 1 > 0`),
only 1 ms < interval has elapsed, the queue is non-empty and no pause
is active — yet because `totalProcessed = 0` (that first dispatch
failed) `scheduleNextRequest` armed the timer with delay 0 (deadline
`some 2` at `time = 2`), not with the claimed strictly positive delay
`max(0, intervalMs - (now - lastDispatchAt)) = 59999`. -/
theorem schedule_wait_counterexample :
    Reachable b5 ∧
    b5.lastRequestTime = 1 ∧
    b5.totalProcessed = 0 ∧
    b5.time = 2 ∧
    b5.time < b5.lastRequestTime + FREE_TIER_RATE_LIMIT_MS ∧
    b5.queue.isEmpty = false ∧
    b5.globalUserPause = false ∧
    b5.paused = false ∧
    b5.scheduledAt = some 2 ∧
    rateWait b5.lastRequestTime 2 = 59999 ∧
    b5.scheduledAt ≠ some (2 + rateWait b5.lastRequestTime 2) :=
  ⟨b5_reach, by decide, by decide, by decide, by decide, by decide,
    by decide, by decide, by decide, by decide, by decide⟩

/-- C5 amended.  When the dispatch loop leaves Idle (non-empty queue,
no global pause, not paused, no timer armed), the programmed delay is
`max(0, intervalMs - (now - lastRequestTime))` (that is, `rateWait`)
and is strictly positive if less than the interval has elapsed —
provided at least one dispatch has COMPLETED SUCCESSFULLY
(`totalProcessed > 0`); the delay is 0 (immediate dispatch) not only
when no dispatch has ever occurred (`lastRequestTime = 0`) but also
whenever no dispatch has yet succeeded (`totalProcessed = 0`). -/
theorem schedule_wait_formula_amended (s : QState) (now : Nat)
    (h : Reachable s) (hq : s.queue.isEmpty = false)
    (hgp : s.globalUserPause = false) (hpz : s.paused = false)
    (hsch : s.scheduledAt = none) (hnow : s.time ≤ now) :
    ((s.lastRequestTime = 0 ∨ s.totalProcessed = 0) →
      (scheduleNextRequest s now).scheduledAt = some now) ∧
    (0 < s.totalProcessed →
      (scheduleNextRequest s now).scheduledAt =
        some (now + rateWait s.lastRequestTime now) ∧
      (now < s.lastRequestTime + FREE_TIER_RATE_LIMIT_MS →
        0 < rateWait s.lastRequestTime now)) := by
  have hI := inv_reachable h
  constructor
  · intro hz
    unfold scheduleNextRequest
    rw [if_neg (by rw [hsch]; simp), if_neg (by rw [hgp]; simp),
      if_neg (by rw [hq, hpz]; simp),
      if_pos (by rcases hz with hz | hz <;> simp [hz])]
  · intro htp
    have hlz : s.lastRequestTime ≠ 0 := by
      have := hI.tpLast htp
      omega
    refine ⟨?_, fun hlt =>
      rateWait_pos _ _ (le_trans hI.lastLeTime hnow) hlt⟩
    unfold scheduleNextRequest
    rw [if_neg (by rw [hsch]; simp), if_neg (by rw [hgp]; simp),
      if_neg (by rw [hq, hpz]; simp),
      if_neg (by
        simp only [Bool.or_eq_true, beq_iff_eq]
        push_neg
        exact ⟨hlz, by omega⟩)]

theorem schedule_wait_formula_amended_witness :
    Reachable w5 ∧ w5.queue.isEmpty = false ∧
    w5.globalUserPause = false ∧ w5.paused = false ∧
    w5.scheduledAt = none ∧ w5.time ≤ 60001 ∧
    (((w5.lastRequestTime = 0 ∨ w5.totalProcessed = 0) →
      (scheduleNextRequest w5 60001).scheduledAt = some 60001) ∧
    (0 < w5.totalProcessed →
      (scheduleNextRequest w5 60001).scheduledAt =
        some (60001 + rateWait w5.lastRequestTime 60001) ∧
      (60001 < w5.lastRequestTime + FREE_TIER_RATE_LIMIT_MS →
        0 < rateWait w5.lastRequestTime 60001))) :=
  ⟨w5_reach, by decide, by decide, by decide, by decide, by decide,
    schedule_wait_formula_amended w5 60001 w5_reach (by decide) (by decide)
      (by decide) (by decide) (by decide)⟩

/-! ### C6: `schedulerPaused` does not gate the dispatch loop -/

def g1 : QState := pauseScheduler init 1

def g2 : QState := (addRequest g1 1 true "q").1

def g3 : QState := fireTimer g2 1

theorem g3_reach : Reachable g3 := by
  have h1 : Step init g1 :=
    Step.pauseScheduler init 1 (by decide) (by decide)
  have h2 : Step g1 g2 :=
    Step.addRequest g1 1 true "q" (by decide) (by decide)
  have h3 : Step g2 g3 :=
    Step.fireTimer g2 1 1 (by decide) (by decide) (by decide) (by decide)
  exact ((Relation.ReflTransGen.refl.tail h1).tail h2).tail h3

/-- C6 counterexample (refuting the claim as stated).  With
`schedulerPaused = true` (after `pauseScheduler()`), `addRequest`
still arms the dispatch timer (`requestScheduled` becomes true,
deadline 1), and when the timer fires the item is dispatched — all
without `resumeScheduler()` ever being called. -/
theorem schedulerPaused_counterexample :
    Reachable g3 ∧
    g2.schedulerPaused = true ∧
    isSchedulerPaused g2 = true ∧
    g2.scheduledAt = some 1 ∧
    g3.schedulerPaused = true ∧
    g3.inFlight.isSome = true :=
  ⟨g3_reach, by decide, by decide, by decide, by decide, by decide⟩

/-- C6 amended.  `schedulerPaused` does not gate the dispatch loop:
`pauseScheduler`/`resumeScheduler` only toggle the flag reported by
`isSchedulerPaused` (for external collaborators to consult before
submitting work), and both `scheduleNextRequest` and the timer
callback behave identically whatever the flag's value. -/
theorem schedulerPaused_not_gating (s : QState) (b : Bool) (now : Nat) :
    pauseScheduler s now = { s with schedulerPaused := true, time := now } ∧
    resumeScheduler s now = { s with schedulerPaused := false, time := now } ∧
    isSchedulerPaused (pauseScheduler s now) = true ∧
    isSchedulerPaused (resumeScheduler s now) = false ∧
    scheduleNextRequest { s with schedulerPaused := b } now =
      { scheduleNextRequest s now with schedulerPaused := b } ∧
    fireTimer { s with schedulerPaused := b } now =
      { fireTimer s now with schedulerPaused := b } := by
  refine ⟨rfl, rfl, rfl, rfl, ?_, ?_⟩
  · unfold scheduleNextRequest
    dsimp only
    by_cases h1 : s.scheduledAt.isSome = true
    · rw [if_pos h1, if_pos h1]
    · rw [if_neg h1, if_neg h1]
      by_cases h2 : s.globalUserPause = true
      · rw [if_pos h2, if_pos h2]
      · rw [if_neg h2, if_neg h2]
        by_cases h3 : (s.queue.isEmpty || s.paused) = true
        · rw [if_pos h3, if_pos h3]
        · rw [if_neg h3, if_neg h3]
          by_cases h4 : ((s.lastRequestTime == 0) ||
              (s.totalProcessed == 0)) = true
          · rw [if_pos h4, if_pos h4]
          · rw [if_neg h4, if_neg h4]
  · unfold fireTimer processQueue
    dsimp only
    by_cases h2 : s.globalUserPause = true
    · rw [if_pos h2, if_pos h2]
    · rw [if_neg h2, if_neg h2]
      by_cases h3 : (s.queue.isEmpty || s.paused) = true
      · rw [if_pos h3, if_pos h3]
      · rw [if_neg h3, if_neg h3]
        cases hq : s.queue with
        | nil => rfl
        | cons item rest => rfl

/-! ### C7: priority ordering -/

theorem schedule_registry (s : QState) (now : Nat) :
    (scheduleNextRequest s now).registry = s.registry := by
  rcases schedule_shape s now with h | ⟨d, h⟩ <;> rw [h]

theorem schedule_exclusiveMode (s : QState) (now : Nat) :
    (scheduleNextRequest s now).exclusiveMode = s.exclusiveMode := by
  rcases schedule_shape s now with h | ⟨d, h⟩ <;> rw [h]

def p1 : QState := (addRequest init 100 false "A").1

def p2 : QState := (addRequest p1 200 false "B").1

def p3 : QState := (addRequest p2 300 true "C").1

def itemC : QItem :=
  { id := 2, priority := USER_REQUEST, timestamp := 300, isCritical := false,
    description := "C" }

def itemA2 : QItem :=
  { id := 0, priority := SYSTEM_REQUEST, timestamp := 100,
    isCritical := false, description := "A" }

def itemB2 : QItem :=
  { id := 1, priority := SYSTEM_REQUEST, timestamp := 200,
    isCritical := false, description := "B" }

def p4 : QState := fireTimer p3 300

def p5 : QState := workSucceed p4 itemC 300

def p6 : QState := fireTimer p5 60300

def p7 : QState := workSucceed p6 itemA2 60300

def p8 : QState := fireTimer p7 120300

theorem p3_reach : Reachable p3 := by
  have h1 : Step init p1 :=
    Step.addRequest init 100 false "A" (by decide) (by decide)
  have h2 : Step p1 p2 :=
    Step.addRequest p1 200 false "B" (by decide) (by decide)
  have h3 : Step p2 p3 :=
    Step.addRequest p2 300 true "C" (by decide) (by decide)
  exact ((Relation.ReflTransGen.refl.tail h1).tail h2).tail h3

theorem p8_reach : Reachable p8 := by
  have h4 : Step p3 p4 :=
    Step.fireTimer p3 300 100 (by decide) (by decide) (by decide) (by decide)
  have h5 : Step p4 p5 :=
    Step.workSucceed p4 itemC 300 (by decide) (by decide) (by decide)
  have h6 : Step p5 p6 :=
    Step.fireTimer p5 60300 60300 (by decide) (by decide) (by decide)
      (by decide)
  have h7 : Step p6 p7 :=
    Step.workSucceed p6 itemA2 60300 (by decide) (by decide) (by decide)
  have h8 : Step p7 p8 :=
    Step.fireTimer p7 120300 120300 (by decide) (by decide) (by decide)
      (by decide)
  exact ((((p3_reach.tail h4).tail h5).tail h6).tail h7).tail h8

/-- C7.  Priority ordering: in every reachable state the head of the
(sorted) queue — the item the dispatch loop pops next — has the
numerically lowest priority among all queued items, with ties broken
by earliest `timestamp`; and in the concrete run where A:SYSTEM\@100,
B:SYSTEM\@200, C:USER\@300 are admitted in that order, the dispatch
order is C (id 2), A (id 0), B (id 1). -/
theorem priority_ordering (s : QState) (h : Reachable s) (x : QItem)
    (rest : List QItem) (hq : s.queue = x :: rest) :
    (∀ y ∈ s.queue,
      x.priority < y.priority ∨
        (x.priority = y.priority ∧ x.timestamp ≤ y.timestamp)) ∧
    p8.dispatches.reverse.map DispatchRec.id = [2, 0, 1] := by
  have hI := inv_reachable h
  refine ⟨?_, by decide⟩
  intro y hy
  have hs := hI.queueSorted
  rw [hq] at hs hy
  exact sorted_head_min hs y hy

theorem priority_ordering_witness :
    Reachable p3 ∧
    p3.queue = itemC :: [itemA2, itemB2] ∧
    ((∀ y ∈ p3.queue,
      itemC.priority < y.priority ∨
        (itemC.priority = y.priority ∧ itemC.timestamp ≤ y.timestamp)) ∧
    p8.dispatches.reverse.map DispatchRec.id = [2, 0, 1]) :=
  ⟨p3_reach, by decide,
    priority_ordering p3 p3_reach itemC [itemA2, itemB2] (by decide)⟩

/-! ### C8: exclusive mode -/

/-- C8.  `enterExclusiveMode(preserve)` sets `exclusiveMode = true`,
removes from the queue exactly the items that are neither critical nor
(when `preserve`) user-priority, settles (rejects with the distinct
"canceled: exclusive mode" settlement) each removed item's previously
unsettled entry and leaves the kept items' entries untouched; while
`exclusiveMode` is true every `addRequest` is rejected immediately
without touching queue or registry, and `exitExclusiveMode` clears the
flag. -/
theorem exclusive_mode_semantics (s : QState) (pres : Bool) (now : Nat) :
    (enterExclusiveMode s pres now).exclusiveMode = true ∧
    (enterExclusiveMode s pres now).queue =
      s.queue.filter
        (fun it => it.isCritical || (pres && it.priority == USER_REQUEST)) ∧
    ((s.queue.map QItem.id).Nodup →
      ∀ it ∈ s.queue,
        (it.isCritical || (pres && it.priority == USER_REQUEST)) = false →
        ∀ e, lookupReg s.registry it.id = some e → e.settled = none →
          lookupReg (enterExclusiveMode s pres now).registry it.id =
            some { e with settled := some SettleKind.canceledExclusive }) ∧
    ((s.queue.map QItem.id).Nodup →
      ∀ it ∈ s.queue,
        (it.isCritical || (pres && it.priority == USER_REQUEST)) = true →
        lookupReg (enterExclusiveMode s pres now).registry it.id =
          lookupReg s.registry it.id) ∧
    (s.exclusiveMode = true → ∀ u dsc,
      (addRequest s now u dsc).2 = AdmitResult.rejectedExclusiveMode ∧
      ((addRequest s now u dsc).1).queue = s.queue ∧
      ((addRequest s now u dsc).1).registry = s.registry) ∧
    (exitExclusiveMode s now).exclusiveMode = false := by
  refine ⟨rfl, rfl, ?_, ?_, ?_, ?_⟩
  · intro hnd it hit hkeep e he hse
    show lookupReg (settleFold pres s.queue s.registry) it.id = _
    rw [lookup_settleFold_rejected pres s.queue s.registry it hnd hit hkeep,
      he]
    show some (settleCanceled e) = _
    unfold settleCanceled
    rw [hse]
  · intro hnd it hit hkeep
    show lookupReg (settleFold pres s.queue s.registry) it.id = _
    apply lookup_settleFold_untouched
    intro it' hit' hkeep' hid
    have heq : it' = it := List.inj_on_of_nodup_map hnd hit' hit hid
    rw [heq] at hkeep'
    unfold keepInExclusive at hkeep'
    rw [hkeep] at hkeep'
    exact Bool.noConfusion hkeep'
  · intro hex u dsc
    have heq : addRequest s now u dsc =
        ({ s with nextId := s.nextId + 1, time := now },
          AdmitResult.rejectedExclusiveMode) := by
      unfold addRequest
      dsimp only
      rw [if_pos hex]
    rw [heq]
    exact ⟨rfl, rfl, rfl⟩
  · unfold exitExclusiveMode
    dsimp only
    split
    · rw [schedule_exclusiveMode]
    · rfl

theorem exclusive_mode_semantics_witness :
    (enterExclusiveMode p3 false 301).exclusiveMode = true ∧
    (enterExclusiveMode p3 false 301).queue = [] ∧
    lookupReg (enterExclusiveMode p3 false 301).registry itemC.id =
      some { priority := USER_REQUEST, timestamp := 300,
             isCritical := false, description := "C",
             status := Status.pending,
             settled := some SettleKind.canceledExclusive } ∧
    (addRequest (enterExclusiveMode p3 false 301) 302 true "later").2 =
      AdmitResult.rejectedExclusiveMode ∧
    (exitExclusiveMode (enterExclusiveMode p3 false 301) 303).exclusiveMode
      = false := by
  have T := exclusive_mode_semantics p3 false 301
  have T2 := exclusive_mode_semantics (enterExclusiveMode p3 false 301)
    false 302
  have T3 := exclusive_mode_semantics (enterExclusiveMode p3 false 301)
    false 303
  refine ⟨T.1, by decide, ?_, ?_, ?_⟩
  · exact T.2.2.1 (by decide) itemC (by decide) (by decide)
      { priority := USER_REQUEST, timestamp := 300, isCritical := false,
        description := "C", status := Status.pending, settled := none }
      (by decide) (by decide)
  · exact ((T2.2.2.2.2.1 T.1 true "later").1)
  · exact T3.2.2.2.2.2

/-! ### C9: estimated wait time -/

/-- C9.  `getEstimatedWaitTimeForRequest` returns `null` for unknown
ids; `0` for every id whose registered item is no longer pending
(in-flight, done or failed — such an item is never still queued in a
reachable state); and for an id queued at 0-based position `k` it
returns `max(0, intervalMs - (now - lastRequestTime)) + k * intervalMs`
(`rateWait` is that base wait); consequently the estimate is monotone
in the queue position for a fixed state. -/
theorem estimated_wait_formula (s : QState) (id : Nat) (now : Nat)
    (h : Reachable s) :
    (lookupReg s.registry id = none →
      getEstimatedWaitTimeForRequest s id now = none) ∧
    (∀ e, lookupReg s.registry id = some e → e.status ≠ Status.pending →
      getEstimatedWaitTimeForRequest s id now = some 0) ∧
    (∀ k, (lookupReg s.registry id).isSome = true →
      s.queue.findIdx? (fun q => q.id == id) = some k →
      getEstimatedWaitTimeForRequest s id now =
        some (rateWait s.lastRequestTime now +
          k * FREE_TIER_RATE_LIMIT_MS)) ∧
    (∀ id' k k' v v', k ≤ k' →
      s.queue.findIdx? (fun q => q.id == id) = some k →
      s.queue.findIdx? (fun q => q.id == id') = some k' →
      getEstimatedWaitTimeForRequest s id now = some v →
      getEstimatedWaitTimeForRequest s id' now = some v' →
      v ≤ v') := by
  have hI := inv_reachable h
  have hformula : ∀ j kk, (lookupReg s.registry j).isSome = true →
      s.queue.findIdx? (fun q => q.id == j) = some kk →
      getEstimatedWaitTimeForRequest s j now =
        some (rateWait s.lastRequestTime now +
          kk * FREE_TIER_RATE_LIMIT_MS) := by
    intro j kk hsome hfi
    obtain ⟨e, he⟩ := Option.isSome_iff_exists.1 hsome
    unfold getEstimatedWaitTimeForRequest
    rw [he, hfi]
  refine ⟨?_, ?_, fun k => hformula id k, ?_⟩
  · intro hnone
    unfold getEstimatedWaitTimeForRequest
    rw [hnone]
  · intro e he hs
    have hfi : s.queue.findIdx? (fun q => q.id == id) = none := by
      rw [List.findIdx?_eq_none_iff]
      intro q hq
      by_cases hqe : q.id = id
      · obtain ⟨e', he', hp'⟩ := hI.queueReg q hq
        rw [hqe, he] at he'
        exact absurd ((Option.some.inj he') ▸ hp') hs
      · simpa using hqe
    unfold getEstimatedWaitTimeForRequest
    rw [he, hfi]
  · intro id' k k' v v' hk hfi hfi' hv hv'
    have hsome : (lookupReg s.registry id).isSome = true := by
      unfold getEstimatedWaitTimeForRequest at hv
      cases hl : lookupReg s.registry id with
      | none => rw [hl] at hv; exact Option.noConfusion hv
      | some e => rfl
    have hsome' : (lookupReg s.registry id').isSome = true := by
      unfold getEstimatedWaitTimeForRequest at hv'
      cases hl : lookupReg s.registry id' with
      | none => rw [hl] at hv'; exact Option.noConfusion hv'
      | some e => rfl
    have h1 := hformula id k hsome hfi
    have h2 := hformula id' k' hsome' hfi'
    rw [hv] at h1
    rw [hv'] at h2
    have hv1 := Option.some.inj h1
    have hv2 := Option.some.inj h2
    have hmul : k * FREE_TIER_RATE_LIMIT_MS ≤ k' * FREE_TIER_RATE_LIMIT_MS :=
      Nat.mul_le_mul_right _ hk
    omega

theorem estimated_wait_formula_witness :
    Reachable w5 ∧
    getEstimatedWaitTimeForRequest w5 2 60002 =
      some (rateWait w5.lastRequestTime 60002 +
        0 * FREE_TIER_RATE_LIMIT_MS) ∧
    ((lookupReg w5.registry 2 = none →
      getEstimatedWaitTimeForRequest w5 2 60002 = none) ∧
    (∀ e, lookupReg w5.registry 2 = some e → e.status ≠ Status.pending →
      getEstimatedWaitTimeForRequest w5 2 60002 = some 0) ∧
    (∀ k, (lookupReg w5.registry 2).isSome = true →
      w5.queue.findIdx? (fun q => q.id == 2) = some k →
      getEstimatedWaitTimeForRequest w5 2 60002 =
        some (rateWait w5.lastRequestTime 60002 +
          k * FREE_TIER_RATE_LIMIT_MS)) ∧
    (∀ id' k k' v v', k ≤ k' →
      w5.queue.findIdx? (fun q => q.id == 2) = some k →
      w5.queue.findIdx? (fun q => q.id == id') = some k' →
      getEstimatedWaitTimeForRequest w5 2 60002 = some v →
      getEstimatedWaitTimeForRequest w5 id' 60002 = some v' →
      v ≤ v')) :=
  ⟨w5_reach,
    (estimated_wait_formula w5 2 60002 w5_reach).2.2.1 0 (by decide)
      (by decide),
    estimated_wait_formula w5 2 60002 w5_reach⟩

/-! ### C10: the status registry only grows -/

theorem isSome_updReg (r : List (Nat × Entry)) (id qid : Nat)
    (f : Entry → Entry) :
    (lookupReg (updReg r id f) qid).isSome = (lookupReg r qid).isSome := by
  by_cases h : qid = id
  · subst h
    rw [lookup_updReg_eq]
    cases lookupReg r qid <;> rfl
  · rw [lookup_updReg_ne _ _ _ _ h]

theorem isSome_setReg (r : List (Nat × Entry)) (id : Nat) (e : Entry)
    (qid : Nat) (h : (lookupReg r qid).isSome = true) :
    (lookupReg (setReg r id e) qid).isSome = true := by
  by_cases hq : qid = id
  · subst hq
    rw [lookup_setReg_self]
    rfl
  · rw [lookup_setReg_ne _ _ _ _ hq]
    exact h

theorem isSome_settleFold (pres : Bool) (l : List QItem)
    (r : List (Nat × Entry)) (qid : Nat) :
    (lookupReg (settleFold pres l r) qid).isSome =
      (lookupReg r qid).isSome := by
  rcases lookup_settleFold_or pres l r qid with h | h <;> rw [h]
  cases lookupReg r qid <;> rfl

/-- No operation of the class ever removes an entry from
`requestStatusMap`: every step preserves the presence of every id and
never shrinks the map. -/
theorem step_registry {s s' : QState} (h : Step s s') :
    (∀ id, (lookupReg s.registry id).isSome = true →
      (lookupReg s'.registry id).isSome = true) ∧
    s.registry.length ≤ s'.registry.length := by
  cases h with
  | addRequest now u dsc ht hp =>
    unfold addRequest
    dsimp only
    generalize (if u = true then USER_REQUEST else SYSTEM_REQUEST) = pri
    split
    · exact ⟨fun id h => h, le_refl _⟩
    · split
      · constructor
        · intro id hid
          rw [schedule_registry]
          exact isSome_setReg _ _ _ _ hid
        · rw [schedule_registry]
          exact length_setReg _ _ _
      · exact ⟨fun id hid => isSome_setReg _ _ _ _ hid, length_setReg _ _ _⟩
  | addCriticalRequest now dsc eid ht hp =>
    unfold addCriticalRequest
    cases eid <;> dsimp only <;> split
    · constructor
      · intro id hid
        rw [schedule_registry]
        exact isSome_setReg _ _ _ _ hid
      · rw [schedule_registry]
        exact length_setReg _ _ _
    · exact ⟨fun id hid => isSome_setReg _ _ _ _ hid, length_setReg _ _ _⟩
    · constructor
      · intro id hid
        rw [schedule_registry]
        exact isSome_setReg _ _ _ _ hid
      · rw [schedule_registry]
        exact length_setReg _ _ _
    · exact ⟨fun id hid => isSome_setReg _ _ _ _ hid, length_setReg _ _ _⟩
  | addUserCriticalRequest now dsc ht hp =>
    unfold addUserCriticalRequest
    dsimp only
    split
    · constructor
      · intro id hid
        rw [schedule_registry]
        exact isSome_setReg _ _ _ _ hid
      · rw [schedule_registry]
        exact length_setReg _ _ _
    · exact ⟨fun id hid => isSome_setReg _ _ _ _ hid, length_setReg _ _ _⟩
  | fireTimer now d ht hp hs hd =>
    unfold fireTimer processQueue
    dsimp only
    split
    · exact ⟨fun id h => h, le_refl _⟩
    · split
      · exact ⟨fun id h => h, le_refl _⟩
      · split
        · exact ⟨fun id h => h, le_refl _⟩
        · rename_i item rest heq
          constructor
          · intro id hid
            rw [isSome_updReg]
            exact hid
          · show s.registry.length ≤
              (updReg s.registry item.id
                (fun e => { e with status := Status.processing })).length
            rw [length_updReg]
  | workSucceed item now ht hp hi =>
    unfold workSucceed clearWaiting
    dsimp only
    split <;> split
    · refine ⟨fun id hid => by rw [isSome_updReg]; exact hid, ?_⟩
      show s.registry.length ≤
        (updReg s.registry item.id settleResolved).length
      rw [length_updReg]
    · refine ⟨fun id hid => ?_, ?_⟩
      · rw [schedule_registry, isSome_updReg]
        exact hid
      · rw [schedule_registry]
        show s.registry.length ≤
          (updReg s.registry item.id settleResolved).length
        rw [length_updReg]
    · refine ⟨fun id hid => by rw [isSome_updReg]; exact hid, ?_⟩
      show s.registry.length ≤
        (updReg s.registry item.id settleResolved).length
      rw [length_updReg]
    · refine ⟨fun id hid => ?_, ?_⟩
      · rw [schedule_registry, isSome_updReg]
        exact hid
      · rw [schedule_registry]
        show s.registry.length ≤
          (updReg s.registry item.id settleResolved).length
        rw [length_updReg]
  | workFail item rl now ht hp hi =>
    unfold workFail clearWaiting
    dsimp only
    split <;> split
    · refine ⟨fun id hid => by rw [isSome_updReg]; exact hid, ?_⟩
      show s.registry.length ≤
        (updReg s.registry item.id settleRejected).length
      rw [length_updReg]
    · refine ⟨fun id hid => ?_, ?_⟩
      · rw [schedule_registry, isSome_updReg]
        exact hid
      · rw [schedule_registry]
        show s.registry.length ≤
          (updReg s.registry item.id settleRejected).length
        rw [length_updReg]
    · refine ⟨fun id hid => by rw [isSome_updReg]; exact hid, ?_⟩
      show s.registry.length ≤
        (updReg s.registry item.id settleRejected).length
      rw [length_updReg]
    · refine ⟨fun id hid => ?_, ?_⟩
      · rw [schedule_registry, isSome_updReg]
        exact hid
      · rw [schedule_registry]
        show s.registry.length ≤
          (updReg s.registry item.id settleRejected).length
        rw [length_updReg]
  | enterExclusiveMode pres now ht hp =>
    refine ⟨fun id hid => ?_, ?_⟩
    · show (lookupReg (settleFold pres s.queue s.registry) id).isSome = true
      rw [isSome_settleFold]
      exact hid
    · show s.registry.length ≤ (settleFold pres s.queue s.registry).length
      rw [length_settleFold]
  | exitExclusiveMode now ht hp =>
    unfold exitExclusiveMode
    dsimp only
    split
    · exact ⟨fun id hid => by rw [schedule_registry]; exact hid,
        by rw [schedule_registry]⟩
    · exact ⟨fun id h => h, le_refl _⟩
  | pause now ht hp => exact ⟨fun id h => h, le_refl _⟩
  | resume now ht hp =>
    unfold resume
    dsimp only
    split
    · exact ⟨fun id hid => by rw [schedule_registry]; exact hid,
        by rw [schedule_registry]⟩
    · exact ⟨fun id h => h, le_refl _⟩
  | pauseScheduler now ht hp => exact ⟨fun id h => h, le_refl _⟩
  | resumeScheduler now ht hp => exact ⟨fun id h => h, le_refl _⟩

/-- C10.  Registry retention: across any sequence of steps, every id
ever present in `requestStatusMap` stays present (so `getRequestStatus`
keeps succeeding forever) and the map's size is monotonically
non-decreasing; moreover in every reachable state the id an admission
would use is fresh (absent from the map), and each of the three
admission functions registers its new item under that fresh id with
status `pending` (`addRequest` provided exclusive mode is off — in
exclusive mode it rejects without creating an item at all). -/
theorem registry_retention :
    (∀ s s', Relation.ReflTransGen Step s s' →
      (∀ id, (lookupReg s.registry id).isSome = true →
        (lookupReg s'.registry id).isSome = true) ∧
      s.registry.length ≤ s'.registry.length) ∧
    (∀ s, Reachable s →
      lookupReg s.registry s.nextId = none ∧
      (s.exclusiveMode = false → ∀ now u dsc,
        (getRequestStatus (addRequest s now u dsc).1 s.nextId).map
          Entry.status = some Status.pending) ∧
      (∀ now dsc eid,
        (getRequestStatus (addCriticalRequest s now dsc eid).1
          s.nextId).map Entry.status = some Status.pending) ∧
      (∀ now dsc,
        (getRequestStatus (addUserCriticalRequest s now dsc).1
          s.nextId).map Entry.status = some Status.pending)) := by
  constructor
  · intro s s' hr
    induction hr with
    | refl => exact ⟨fun id h => h, le_refl _⟩
    | tail _ hstep ih =>
      obtain ⟨ih1, ih2⟩ := ih
      obtain ⟨h1, h2⟩ := step_registry hstep
      exact ⟨fun id hid => h1 id (ih1 id hid), le_trans ih2 h2⟩
  · intro s hres
    have hI := inv_reachable hres
    have hfresh : lookupReg s.registry s.nextId = none := by
      cases hl' : lookupReg s.registry s.nextId with
      | none => rfl
      | some e' =>
        exact absurd (hI.keysLt _ (lookup_mem _ _ _ hl')) (by omega)
    refine ⟨hfresh, ?_, ?_, ?_⟩
    · intro hex now u dsc
      unfold addRequest
      dsimp only
      generalize (if u = true then USER_REQUEST else SYSTEM_REQUEST) = pri
      rw [if_neg (by rw [hex]; exact fun hc => Bool.noConfusion hc)]
      split
      · show ((lookupReg (scheduleNextRequest _ now).registry s.nextId).map
          Entry.status) = some Status.pending
        rw [schedule_registry]
        show ((lookupReg (setReg s.registry s.nextId _) s.nextId).map
          Entry.status) = some Status.pending
        rw [lookup_setReg_self]
        rfl
      · show ((lookupReg (setReg s.registry s.nextId _) s.nextId).map
          Entry.status) = some Status.pending
        rw [lookup_setReg_self]
        rfl
    · intro now dsc eid
      unfold addCriticalRequest
      cases eid <;> dsimp only <;> split
      · show ((lookupReg (scheduleNextRequest _ now).registry s.nextId).map
          Entry.status) = some Status.pending
        rw [schedule_registry]
        show ((lookupReg (setReg s.registry s.nextId _) s.nextId).map
          Entry.status) = some Status.pending
        rw [lookup_setReg_self]
        rfl
      · show ((lookupReg (setReg s.registry s.nextId _) s.nextId).map
          Entry.status) = some Status.pending
        rw [lookup_setReg_self]
        rfl
      · show ((lookupReg (scheduleNextRequest _ now).registry s.nextId).map
          Entry.status) = some Status.pending
        rw [schedule_registry]
        show ((lookupReg (setReg s.registry s.nextId _) s.nextId).map
          Entry.status) = some Status.pending
        rw [lookup_setReg_self]
        rfl
      · show ((lookupReg (setReg s.registry s.nextId _) s.nextId).map
          Entry.status) = some Status.pending
        rw [lookup_setReg_self]
        rfl
    · intro now dsc
      unfold addUserCriticalRequest
      dsimp only
      split
      · show ((lookupReg (scheduleNextRequest _ now).registry s.nextId).map
          Entry.status) = some Status.pending
        rw [schedule_registry]
        show ((lookupReg (setReg s.registry s.nextId _) s.nextId).map
          Entry.status) = some Status.pending
        rw [lookup_setReg_self]
        rfl
      · show ((lookupReg (setReg s.registry s.nextId _) s.nextId).map
          Entry.status) = some Status.pending
        rw [lookup_setReg_self]
        rfl

theorem w2_reach : Reachable w2 := by
  have h1 : Step init w1 :=
    Step.addRequest init 1 false "a" (by decide) (by decide)
  have h2 : Step w1 w2 :=
    Step.addRequest w1 1 false "b" (by decide) (by decide)
  exact (Relation.ReflTransGen.refl.tail h1).tail h2

theorem registry_retention_witness :
    Reachable w2 ∧ w2.exclusiveMode = false ∧
    ((∀ id, (lookupReg init.registry id).isSome = true →
      (lookupReg w2.registry id).isSome = true) ∧
      init.registry.length ≤ w2.registry.length) ∧
    lookupReg w2.registry w2.nextId = none ∧
    (getRequestStatus (addRequest w2 5 true "d").1 w2.nextId).map
      Entry.status = some Status.pending :=
  ⟨w2_reach, by decide,
    registry_retention.1 init w2 w2_reach,
    (registry_retention.2 w2 w2_reach).1,
    (registry_retention.2 w2 w2_reach).2.1 (by decide) 5 true "d"⟩

end BQ
